/-
Verification of the dispersy message-exchange engine (triblerteam/dispersy)
against its natural-language specification.

The Lean definitions below are a shallow embedding of the Python source:
  - dispersy.py     : message store, ingress pipeline, walker, WAN voting
  - requestcache.py : the request/response correlation cache

Python byte strings are modelled as `List Nat` (one entry per byte) with the
lexicographic order that Python uses for `str` comparison, machine integers as
`Nat`/`Int`, SQL tables as lists of row structures, and Python dicts as
association lists.  Stateful methods become explicit state-passing functions.
-/
import Mathlib

namespace Dispersy

/-- Byte strings (Python `str` packets) as lists of byte values. -/
abbrev Packet := List Nat

/-- Python lexicographic `<` on byte strings (`have_packet < message.packet`). -/
def bytesLt : Packet → Packet → Bool
  | [], [] => false
  | [], _ :: _ => true
  | _ :: _, [] => false
  | a :: as, b :: bs => if a < b then true else if b < a then false else bytesLt as bs

/-- Python `min` on a list of naturals; junk value 0 on the empty list (where
Python would raise `ValueError`; every use site below guards non-emptiness). -/
def pyMin : List Nat → Nat
  | [] => 0
  | [a] => a
  | a :: rest => min a (pyMin rest)

/-- A socket address `(host, port)` as the Python code carries it. -/
abbrev Addr := String × Int

/-! ## is_valid_address (dispersy.py lines 3013-3053)

The host string is handed to `socket.inet_aton`, which implements the C
numbers-and-dots notation: one to four numeric parts separated by dots, each
part written in decimal, octal (leading `0`) or hexadecimal (leading `0x`),
with the final part filling all remaining bytes of the 4-byte address. -/

/-- Split a character list on the dot character (like C parsing of the
numbers-and-dots notation; `"1..2"` yields an empty middle part). -/
def splitDots : List Char → List (List Char)
  | [] => [[]]
  | c :: rest =>
    if c = '.' then [] :: splitDots rest
    else
      match splitDots rest with
      | part :: parts => (c :: part) :: parts
      | [] => [[c]]

/-- Decimal digit value of a character, if any. -/
def decDigit (c : Char) : Option Nat :=
  if 48 ≤ c.toNat ∧ c.toNat ≤ 57 then some (c.toNat - 48) else none

/-- Octal digit value of a character, if any. -/
def octDigit (c : Char) : Option Nat :=
  if 48 ≤ c.toNat ∧ c.toNat ≤ 55 then some (c.toNat - 48) else none

/-- Hexadecimal digit value of a character, if any. -/
def hexDigit (c : Char) : Option Nat :=
  if 48 ≤ c.toNat ∧ c.toNat ≤ 57 then some (c.toNat - 48)
  else if 97 ≤ c.toNat ∧ c.toNat ≤ 102 then some (c.toNat - 87)
  else if 65 ≤ c.toNat ∧ c.toNat ≤ 70 then some (c.toNat - 55)
  else none

/-- Accumulate the value of a digit string in the given base; `none` when a
character is not a digit of that base. -/
def digitsVal (base : Nat) (dig : Char → Option Nat) (acc : Nat) : List Char → Option Nat
  | [] => some acc
  | c :: rest =>
    match dig c with
    | some d => digitsVal base dig (acc * base + d) rest
    | none => none

/-- Parse one numeric part of the numbers-and-dots notation in C style:
`0x`/`0X` means hexadecimal, a leading `0` means octal, otherwise decimal. -/
def parseCNum : List Char → Option Nat
  | '0' :: 'x' :: rest => if rest = [] then none else digitsVal 16 hexDigit 0 rest
  | '0' :: 'X' :: rest => if rest = [] then none else digitsVal 16 hexDigit 0 rest
  | '0' :: rest => digitsVal 8 octDigit 0 rest
  | [] => none
  | cs => digitsVal 10 decDigit 0 cs

/-- Model of `socket.inet_aton`: the classic numbers-and-dots notation with
one to four parts and the documented per-part range checks; returns the four
address bytes. -/
def inet_aton (host : String) : Option (List Nat) :=
  match (splitDots host.toList).mapM parseCNum with
  | some [a] =>
    if a ≤ 4294967295 then some [a / 16777216 % 256, a / 65536 % 256, a / 256 % 256, a % 256] else none
  | some [a, b] =>
    if a ≤ 255 ∧ b ≤ 16777215 then some [a, b / 65536 % 256, b / 256 % 256, b % 256] else none
  | some [a, b, c] =>
    if a ≤ 255 ∧ b ≤ 255 ∧ c ≤ 65535 then some [a, b, c / 256, c % 256] else none
  | some [a, b, c, d] =>
    if a ≤ 255 ∧ b ≤ 255 ∧ c ≤ 255 ∧ d ≤ 255 then some [a, b, c, d] else none
  | _ => none

/-- Dispersy.is_valid_address (dispersy.py lines 3013-3053): reject the empty
host, the host `0.0.0.0`, non-positive ports, hosts that `inet_aton` cannot
parse, and addresses whose final byte is `0` or `255`. -/
def is_valid_address (address : Addr) : Bool :=
  if address.1 = "" then false
  else if address.1 = "0.0.0.0" then false
  else if address.2 ≤ 0 then false
  else
    match inet_aton address.1 with
    | none => false
    | some binary =>
      if binary.getD 3 0 = 0 then false
      else if binary.getD 3 0 = 255 then false
      else true

/-- Parse a non-empty all-decimal part (no octal/hex forms): used only by the
spec-side dotted-quad rule below. -/
def decNum : List Char → Option Nat
  | [] => none
  | cs => digitsVal 10 decDigit 0 cs

/-- Spec-side rule (from the claim's words): the host is a valid IPv4 dotted
quad, i.e. exactly four dot-separated decimal parts each at most 255. -/
def isDottedQuad (host : String) : Bool :=
  match (splitDots host.toList).mapM decNum with
  | some [a, b, c, d] => a ≤ 255 ∧ b ≤ 255 ∧ c ≤ 255 ∧ d ≤ 255
  | _ => false

/-- Spec-side rule (from the claim's words): final octet of the dotted quad. -/
def quadLast (host : String) : Nat :=
  match (splitDots host.toList).mapM decNum with
  | some [_, _, _, d] => d
  | _ => 0

/-- Address validity exactly as claim C7 words it: a valid IPv4 dotted quad,
neither empty nor `0.0.0.0`, final octet neither 0 nor 255, and port > 0. -/
def claimValidAddress (address : Addr) : Bool :=
  isDottedQuad address.1 ∧ address.1 ≠ "" ∧ address.1 ≠ "0.0.0.0" ∧
    quadLast address.1 ≠ 0 ∧ quadLast address.1 ≠ 255 ∧ 0 < address.2

/-! ## The sync message store

One row of the `sync` table.  The community is fixed (all claims are about a
single community), so the `community` column is left implicit.  The
`double_signed_sync` auxiliary row `(sync, member1, member2)` with
`member1 < member2` is folded into the optional `pair` field. -/

structure SyncRow where
  id : Nat
  member : Nat
  global_time : Nat
  meta : Nat
  packet : Packet
  undone : Nat
  pair : Option (Nat × Nat)
deriving DecidableEq

abbrev DB := List SyncRow

/-- Outbound effect: `self._endpoint.send([message.candidate], [packet])`. -/
inductive Action where
  | send (packet : Packet)
deriving DecidableEq

/-- The fields of a single-member-signed `Message.Implementation` that
`_is_duplicate_sync_message` inspects.  `sigLen` is
`message.authentication.member.signature_length`. -/
structure Msg where
  member : Nat
  global_time : Nat
  packet : Packet
  sigLen : Nat
deriving DecidableEq

/-- Row lookup `SELECT ... FROM sync WHERE member = ? AND global_time = ?`
(the community is fixed; the triple is unique, so the first hit is the row). -/
def findRow (db : DB) (member gt : Nat) : Option SyncRow :=
  db.find? (fun r => r.member = member ∧ r.global_time = gt)

/-- Row lookup `SELECT ... FROM sync WHERE id = ?`. -/
def findRowById (db : DB) (i : Nat) : Option SyncRow :=
  db.find? (fun r => r.id = i)

/-- The SQL `UPDATE sync SET packet = ? WHERE member = ? AND global_time = ?`. -/
def updatePacketRows (db : DB) (member gt : Nat) (p : Packet) : DB :=
  db.map (fun r => if r.member = member ∧ r.global_time = gt then { r with packet := p } else r)

/-- Result of `_is_duplicate_sync_message`: the returned boolean, the database
after the call, and the packets it sent. -/
structure DupResult where
  isDup : Bool
  db : DB
  actions : List Action
deriving DecidableEq

/-- Dispersy._is_duplicate_sync_message (dispersy.py lines 1046-1137).  When a
row with the same (member, global_time) exists: an identical packet is a
duplicate (sending back the undo proof when the stored row is undone); when
only the stored and received packets differ but their first `sigLen` bytes
agree, the stored packet is replaced when it is the lexicographically smaller
one (i.e. the larger of the two packets is kept). -/
def is_duplicate_sync_message (db : DB) (m : Msg) : DupResult :=
  match findRow db m.member m.global_time with
  | none => ⟨false, db, []⟩
  | some row =>
    if row.packet = m.packet then
      if row.undone ≠ 0 then
        match findRowById db row.undone with
        | some proofRow => ⟨true, db, [Action.send proofRow.packet]⟩
        | none => ⟨true, db, []⟩
      else ⟨true, db, []⟩
    else if row.packet.take m.sigLen = m.packet.take m.sigLen then
      if bytesLt row.packet m.packet then
        ⟨true, updatePacketRows db m.member m.global_time m.packet, []⟩
      else ⟨true, db, []⟩
    else ⟨true, db, []⟩

/-- The fields of a double-member-signed message that the duplicate branch of
`check_double_member_and_global_time` inspects. `member` is
`authentication.member` (the first signer), `members` the two signers in
signing order, and `sigLenSum` the sum of both signature lengths. -/
structure DMsg where
  member : Nat
  members : Nat × Nat
  global_time : Nat
  packet : Packet
  sigLenSum : Nat
deriving DecidableEq

/-- Outcomes of the duplicate branch of `check_double_member_and_global_time`
(all are `DropMessage`s with distinct reasons). -/
inductive DoubleDupOutcome where
  | dropIdentical
  | dropReplaced
  | dropNotReplaced
  | dropConflict
deriving DecidableEq

/-- The SQL `UPDATE sync SET member = ?, packet = ? WHERE id = ?`. -/
def updateRowById (db : DB) (pid : Nat) (member : Nat) (p : Packet) : DB :=
  db.map (fun r => if r.id = pid then { r with member := member, packet := p } else r)

/-- The duplicate branch of check_double_member_and_global_time (dispersy.py
lines 1374-1402), entered when `tim` already holds the incoming global time
with stored row id `pid` and stored bytes `havePacket`.  Identical packets are
dropped; when the header and the region between the member ids and the
signature offset agree, the lexicographically larger packet is kept (the
stored row is rewritten when the incoming packet is larger). -/
def double_member_duplicate (db : DB) (pid : Nat) (havePacket : Packet) (m : DMsg) :
    DoubleDupOutcome × DB :=
  if havePacket = m.packet then (.dropIdentical, db)
  else
    -- member_authentication_begin = 23 (version, version, community-id, message-type),
    -- member_authentication_end = 23 + 20 * 2 for the two 20-byte member ids
    if havePacket.take 23 = m.packet.take 23 ∧
        (havePacket.drop 63).take (m.sigLenSum - 63) = (m.packet.drop 63).take (m.sigLenSum - 63) then
      if bytesLt havePacket m.packet then (.dropReplaced, updateRowById db pid m.member m.packet)
      else (.dropNotReplaced, db)
    else (.dropConflict, db)

/-! ## Full-sync distribution check with sequence numbers
(_check_full_sync_distribution_batch, dispersy.py lines 1139-1215) -/

/-- A full-sync message as the batch check sees it. -/
structure FSMsg where
  member : Nat
  global_time : Nat
  seq : Nat
  packet : Packet
  sigLen : Nat
deriving DecidableEq

/-- Per-message outcome of the full-sync batch check, one constructor per
`DropMessage`/`DelayMessageBySequence`/accept exit of the source loop. -/
inductive FSOutcome where
  | dropCeiling
  | dropUniqueKey
  | dropSeqDup
  | delaySeq (lo hi : Nat)
  | dropDupDb
  | accept
deriving DecidableEq

/-- The SQL `SELECT COUNT(*) FROM sync WHERE member = ? AND meta_message = ?`. -/
def dbCount (db : DB) (member meta : Nat) : Nat :=
  (db.filter (fun r => r.member = member ∧ r.meta = meta)).length

/-- Lookup in an association list modelling the Python dict `highest`,
with default 0 (the source asserts presence at every use). -/
def lookupD (l : List (Nat × Nat)) (k : Nat) : Nat :=
  ((l.find? (fun p => p.1 = k)).map Prod.snd).getD 0

/-- In-place update of an existing key of the `highest` dict. -/
def setKey (l : List (Nat × Nat)) (k v : Nat) : List (Nat × Nat) :=
  l.map (fun p => if p.1 = k then (k, v) else p)

/-- The pre-loop pass filling `highest` (dispersy.py lines 1174-1179): the
first time a member is seen, record its stored-message count. -/
def fsInitHighest (db : DB) (meta : Nat) : List FSMsg → List (Nat × Nat) → List (Nat × Nat)
  | [], h => h
  | m :: rest, h =>
    if (h.find? (fun p => p.1 = m.member)).isSome then fsInitHighest db meta rest h
    else fsInitHighest db meta rest (h ++ [(m.member, dbCount db m.member meta)])

def fsMsgToMsg (m : FSMsg) : Msg :=
  ⟨m.member, m.global_time, m.packet, m.sigLen⟩

/-- The message loop of the sequence-number branch (dispersy.py lines
1182-1215): ceiling check, member^global_time uniqueness check, duplicate
drop for `seq ≤ highest`, delay for `seq > highest + 1`, database duplicate
check, and acceptance with `highest[member] += 1`. -/
def fsLoop (acceptable : Nat) :
    List FSMsg → List (Nat × Nat) → List (Nat × Nat) → DB → List FSOutcome × DB
  | [], _, _, db => ([], db)
  | m :: rest, u, h, db =>
    if acceptable < m.global_time then
      let r := fsLoop acceptable rest u h db
      (.dropCeiling :: r.1, r.2)
    else if (m.member, m.global_time) ∈ u then
      let r := fsLoop acceptable rest u h db
      (.dropUniqueKey :: r.1, r.2)
    else
      let u' := (m.member, m.global_time) :: u
      let s := lookupD h m.member
      if m.seq ≤ s then
        let r := fsLoop acceptable rest u' h db
        (.dropSeqDup :: r.1, r.2)
      else if s + 1 ≠ m.seq then
        let r := fsLoop acceptable rest u' h db
        (.delaySeq (s + 1) (m.seq - 1) :: r.1, r.2)
      else
        let d := is_duplicate_sync_message db (fsMsgToMsg m)
        if d.isDup then
          let r := fsLoop acceptable rest u' h d.db
          (.dropDupDb :: r.1, r.2)
        else
          let r := fsLoop acceptable rest u' (setKey h m.member (s + 1)) d.db
          (.accept :: r.1, r.2)

/-- The batch sort key `(global_time, packet-bytes)` as a `≤` relation. -/
def fsMsgLe (a b : FSMsg) : Prop :=
  a.global_time < b.global_time ∨
    (a.global_time = b.global_time ∧ (bytesLt a.packet b.packet = true ∨ a.packet = b.packet))

instance : DecidableRel fsMsgLe := fun a b => by unfold fsMsgLe; infer_instance

/-- The sequence-number branch of `_check_full_sync_distribution_batch`:
sort by (global_time, packet), fill `highest`, then run the message loop. -/
def check_full_sync_distribution_batch_seq (acceptable meta : Nat) (db : DB) (msgs : List FSMsg) :
    List FSOutcome × DB :=
  let sorted := List.insertionSort fsMsgLe msgs
  fsLoop acceptable sorted [] (fsInitHighest db meta sorted []) db

/-! ## WAN address voting (dispersy.py lines 951-1044) -/

/-- The two fields of the voting `Candidate` that `wan_address_vote` reads. -/
structure Voter where
  sock_addr : Addr
  wan_address : Addr
deriving DecidableEq

/-- The node state touched by `wan_address_vote`.  `wan_address_votes` maps a
claimed address to the set of voter socket addresses (kept as a list without
duplicates); `candidates` maps a candidate socket address to that candidate's
WAN address; `bootstrap_candidates` is keyed by socket address. -/
structure NodeState where
  lan_address : Addr
  wan_address : Addr
  connection_type : String
  wan_address_votes : List (Addr × List Addr)
  candidates : List (Addr × Addr)
  bootstrap_candidates : List Addr
deriving DecidableEq

/-- The voter set stored for a claimed address (`votes.get(a, ())`). -/
def votesLookup (votes : List (Addr × List Addr)) (a : Addr) : List Addr :=
  ((votes.find? (fun p => p.1 = a)).map Prod.snd).getD []

/-- Dispersy.wan_address_unvote (dispersy.py lines 951-962): remove the
voter's socket address from the (unique) vote set containing it, deleting the
vote entry when it empties. -/
def wan_address_unvote (votes : List (Addr × List Addr)) (sock : Addr) :
    List (Addr × List Addr) :=
  match votes with
  | [] => []
  | (a, vs) :: rest =>
    if sock ∈ vs then
      let vs' := vs.erase sock
      if vs' = [] then rest else (a, vs') :: rest
    else (a, vs) :: wan_address_unvote rest sock

/-- The `votes[address] = set(); votes[address].add(voter.sock_addr)` step. -/
def votesAdd (votes : List (Addr × List Addr)) (a sock : Addr) : List (Addr × List Addr) :=
  if (votes.find? (fun p => p.1 = a)).isSome then
    votes.map (fun p => if p.1 = a then (a, if sock ∈ p.2 then p.2 else p.2 ++ [sock]) else p)
  else votes ++ [(a, [sock])]

/-- The vote-count comparison and state update of wan_address_vote
(dispersy.py lines 1008-1037): when the voted address differs from the
current one and now has at least as many votes, either flag a suspected
symmetric NAT (more than one address holds votes) or adopt the new address
(fixing up the connection type and an invalid LAN address, and purging the
adopted address from the candidate tables); afterwards purge candidates
whose WAN address equals our (possibly new) WAN address. -/
def wanVoteCore (s : NodeState) (address : Addr) (votes : List (Addr × List Addr)) : NodeState :=
  if s.wan_address ≠ address ∧
      (votesLookup votes s.wan_address).length ≤ (votesLookup votes address).length then
    let s2 : NodeState :=
      if 1 < votes.length then
        { s with connection_type := "symmetric-NAT", wan_address_votes := votes }
      else
        { lan_address :=
            if ¬ is_valid_address s.lan_address then (address.1, s.lan_address.2)
            else s.lan_address
          wan_address := address
          connection_type :=
            if s.connection_type = "symmetric-NAT" then "unknown" else s.connection_type
          wan_address_votes := votes
          candidates := s.candidates.filter (fun p => p.1 ≠ address)
          bootstrap_candidates := s.bootstrap_candidates.filter (fun b => b ≠ address) }
    { s2 with candidates := s2.candidates.filter (fun p => p.2 ≠ s2.wan_address) }
  else { s with wan_address_votes := votes }

/-- The closing connection-type fix-up of wan_address_vote (dispersy.py lines
1039-1040): equal LAN and WAN addresses under an unknown connection type mean
we are public. -/
def wanCtFix (s1 : NodeState) : NodeState :=
  if s1.connection_type = "unknown" ∧ s1.lan_address = s1.wan_address then
    { s1 with connection_type := "public" }
  else s1

/-- Dispersy.wan_address_vote (dispersy.py lines 964-1044).  Ignores voters on
our own LAN and invalid claimed addresses; otherwise re-votes (undoing the
voter's previous vote), then possibly updates the WAN address, the connection
type, the LAN address, and purges candidates that collide with our own
address. -/
def wan_address_vote (s : NodeState) (address : Addr) (voter : Voter) : NodeState :=
  if s.wan_address.1 = voter.wan_address.1 ∨ s.wan_address.1 = voter.sock_addr.1 then s
  else if ¬ is_valid_address address then s
  else
    wanCtFix (wanVoteCore s address
      (votesAdd (wan_address_unvote s.wan_address_votes voter.sock_addr) address voter.sock_addr))

/-! ## Last-sync distribution check, single-member authentication
(check_member_and_global_time, dispersy.py lines 1275-1323) -/

/-- A last-sync message as `check_member_and_global_time` sees it. -/
structure LSMsg where
  member : Nat
  global_time : Nat
  packet : Packet
  sigLen : Nat
  history_size : Nat
deriving DecidableEq

/-- Per-message outcome, one constructor per exit of the source function. -/
inductive LSOutcome where
  | dropAlready
  | dropDup
  | dropOld
  | accept
deriving DecidableEq

/-- The SQL `SELECT global_time FROM sync WHERE community = ? AND member = ?
AND meta_message = ?` (community fixed). -/
def dbGts (db : DB) (member meta : Nat) : List Nat :=
  (db.filter (fun r => r.member = member ∧ r.meta = meta)).map (fun r => r.global_time)

/-- The row with the highest global time among a list of rows. -/
def rowsMaxGt : List SyncRow → Option SyncRow
  | [] => none
  | r :: rest =>
    match rowsMaxGt rest with
    | none => some r
    | some r' => if r.global_time < r'.global_time then some r' else some r

/-- The SQL `SELECT packet FROM sync WHERE community = ? AND member = ?
ORDER BY global_time DESC LIMIT 1` (note: the source query does not filter on
the meta message). -/
def dbNewestPacket (db : DB) (member : Nat) : Option Packet :=
  (rowsMaxGt (db.filter (fun r => r.member = member))).map (fun r => r.packet)

/-- The mutable state of the last-sync batch check: the `unique` key set, the
`times` dict caching per-member stored global times, and the database. -/
structure LSState where
  unique : List (Nat × Nat)
  times : List (Nat × List Nat)
  db : DB
deriving DecidableEq

def timesLookup (times : List (Nat × List Nat)) (k : Nat) : Option (List Nat) :=
  (times.find? (fun p => p.1 = k)).map Prod.snd

/-- Insert-or-update of the `times` dict. -/
def timesSet (times : List (Nat × List Nat)) (k : Nat) (v : List Nat) :
    List (Nat × List Nat) :=
  if (times.find? (fun p => p.1 = k)).isSome then
    times.map (fun p => if p.1 = k then (k, v) else p)
  else times ++ [(k, v)]

def lsToMsg (m : LSMsg) : Msg :=
  ⟨m.member, m.global_time, m.packet, m.sigLen⟩

/-- The tail of `check_member_and_global_time` after the duplicate probe: drop
as old when the history is full and the stored minimum is newer (sending the
stored newest packet back when `history_size == 1`), else accept and append
the global time to `tim`. -/
def lsAfterDup (st : LSState) (tim : List Nat) (m : LSMsg) :
    LSOutcome × LSState × List Action :=
  if m.history_size ≤ tim.length ∧ m.global_time < pyMin tim then
    let acts :=
      if m.history_size = 1 then
        match dbNewestPacket st.db m.member with
        | some p => [Action.send p]
        | none => []
      else []
    (.dropOld, st, acts)
  else
    (.accept, { st with times := timesSet st.times m.member (tim ++ [m.global_time]) }, [])

/-- The `times` dict after the first-sight load of the member's stored global
times (dispersy.py lines 1291-1294). -/
def lsTimes0 (meta : Nat) (st : LSState) (m : LSMsg) : List (Nat × List Nat) :=
  if (timesLookup st.times m.member).isSome then st.times
  else timesSet st.times m.member (dbGts st.db m.member meta)

/-- The member's cached global-time list `tim`. -/
def lsTim (meta : Nat) (st : LSState) (m : LSMsg) : List Nat :=
  (timesLookup (lsTimes0 meta st m) m.member).getD []

/-- check_member_and_global_time (dispersy.py lines 1275-1323): drop keys seen
in this batch, load the member's stored global times on first sight, drop
database duplicates (via `_is_duplicate_sync_message`, which may rewrite the
stored packet and send an undo proof), drop old messages, accept the rest. -/
def check_member_and_global_time (meta : Nat) (st : LSState) (m : LSMsg) :
    LSOutcome × LSState × List Action :=
  if (m.member, m.global_time) ∈ st.unique then (.dropAlready, st, [])
  else
    if m.global_time ∈ lsTim meta st m then
      let d := is_duplicate_sync_message st.db (lsToMsg m)
      if d.isDup then
        (.dropDup, ⟨(m.member, m.global_time) :: st.unique, lsTimes0 meta st m, d.db⟩, d.actions)
      else
        lsAfterDup ⟨(m.member, m.global_time) :: st.unique, lsTimes0 meta st m, d.db⟩
          (lsTim meta st m) m
    else
      lsAfterDup ⟨(m.member, m.global_time) :: st.unique, lsTimes0 meta st m, st.db⟩
        (lsTim meta st m) m

/-! ## Storing a batch (_store, dispersy.py lines 2018-2142) -/

/-- The meta-message fields `_store` reads: database id, whether the
distribution is last-sync, whether authentication is double-member, and the
last-sync history size. -/
structure MetaInfo where
  id : Nat
  isLastSync : Bool
  isDouble : Bool
  history_size : Nat
deriving DecidableEq

/-- A validated message handed to `_store`: creator, both signers in signing
order (meaningful only under double-member authentication), global time and
packet bytes. -/
structure StoreMsg where
  member : Nat
  members : Nat × Nat
  global_time : Nat
  packet : Packet
deriving DecidableEq

/-- `(member1, member2) if member1 < member2 else (member2, member1)`. -/
def orderPair (p : Nat × Nat) : Nat × Nat :=
  if p.1 < p.2 then p else (p.2, p.1)

/-- Fresh row id, modelling the auto-increment `last_insert_rowid`. -/
def maxId (db : DB) : Nat :=
  db.foldr (fun r acc => max r.id acc) 0

/-- The INSERT loop of `_store`: one `sync` row per message (undone = 0), and
for double-member authentication the ordered `double_signed_sync` pair. -/
def storeInsert (meta : MetaInfo) (db : DB) : List StoreMsg → DB
  | [] => db
  | m :: rest =>
    storeInsert meta
      (db ++ [⟨maxId db + 1, m.member, m.global_time, meta.id, m.packet, 0,
               if meta.isDouble then some (orderPair m.members) else none⟩])
      rest

/-- The prune sort key `ORDER BY global_time, packet` as a `≤` relation. -/
def rowLe (a b : SyncRow) : Prop :=
  a.global_time < b.global_time ∨
    (a.global_time = b.global_time ∧ (bytesLt a.packet b.packet = true ∨ a.packet = b.packet))

instance : DecidableRel rowLe := fun a b => by unfold rowLe; infer_instance

/-- The rows of one single-member-authentication group `(meta, member)`. -/
def groupRowsMember (db : DB) (meta member : Nat) : DB :=
  db.filter (fun r => r.meta = meta ∧ r.member = member)

/-- The rows of one double-member-authentication group `(meta, ordered pair)`
(the `JOIN double_signed_sync` query of `_store`). -/
def groupRowsPair (db : DB) (meta : Nat) (pr : Nat × Nat) : DB :=
  db.filter (fun r => r.meta = meta ∧ r.pair = some pr)

/-- Ids of the obsolete rows of one group: sort by `(global_time, packet)` and
take everything before the last `history_size` rows (dispersy.py lines
2104-2105 and 2114-2115). -/
def obsoleteIds (h : Nat) (group : DB) : List Nat :=
  if h < group.length then
    ((List.insertionSort rowLe group).take (group.length - h)).map (fun r => r.id)
  else []

/-- The full set of row ids deleted by the prune step, one group per distinct
batch member (single) or distinct ordered signer pair (double). -/
def storeRemovedIds (meta : MetaInfo) (db1 : DB) (msgs : List StoreMsg) : List Nat :=
  if meta.isDouble then
    ((msgs.map (fun m => orderPair m.members)).dedup).flatMap
      (fun pr => obsoleteIds meta.history_size (groupRowsPair db1 meta.id pr))
  else
    ((msgs.map (fun m => m.member)).dedup).flatMap
      (fun mem => obsoleteIds meta.history_size (groupRowsMember db1 meta.id mem))

/-- Dispersy._store (dispersy.py lines 2018-2142), database effect only:
insert every message, then for last-sync metas delete the obsolete rows of
every touched group. -/
def store (meta : MetaInfo) (db : DB) (msgs : List StoreMsg) : DB :=
  let db1 := storeInsert meta db msgs
  if meta.isLastSync then
    let removed := storeRemovedIds meta db1 msgs
    db1.filter (fun r => r.id ∉ removed)
  else db1

/-! ## Sync response of on_introduction_request
(dispersy.py lines 2446-2487) -/

/-- A row of the `meta_message` table as the sync query reads it; `isSync`
records whether the meta's distribution is a `SyncDistribution`. -/
structure MetaRow where
  id : Nat
  priority : Nat
  direction : Int
  isSync : Bool
deriving DecidableEq

/-- The `IN (...)` clause: metas with a sync distribution and priority > 32. -/
def syncableIds (metas : List MetaRow) : List Nat :=
  (metas.filter (fun m => m.isSync ∧ 32 < m.priority)).map (fun m => m.id)

/-- The bloom SELECT: syncable meta, not undone, global time in
`[time_low, time_high]`, `(global_time + offset) % modulo == 0`; each hit is
paired with its meta row for the ORDER BY key. -/
def syncQuery (metas : List MetaRow) (db : DB) (tl th off mo : Nat) :
    List (SyncRow × MetaRow) :=
  db.filterMap (fun r =>
    match metas.find? (fun mm => mm.id = r.meta) with
    | some mm =>
      if r.meta ∈ syncableIds metas ∧ r.undone = 0 ∧ tl ≤ r.global_time ∧
          r.global_time ≤ th ∧ (r.global_time + off) % mo = 0 then some (r, mm)
      else none
    | none => none)

/-- The `ORDER BY meta_message.priority DESC, sync.global_time *
meta_message.direction` key as a `≤` relation. -/
def syncOrd (a b : SyncRow × MetaRow) : Prop :=
  b.2.priority < a.2.priority ∨
    (a.2.priority = b.2.priority ∧
      (a.1.global_time : Int) * a.2.direction ≤ (b.1.global_time : Int) * b.2.direction)

instance : DecidableRel syncOrd := fun a b => by unfold syncOrd; infer_instance

/-- The packet-collecting loop (dispersy.py lines 2470-2481): append each
missing packet, deduct its size, stop once the remaining budget drops to or
below zero.  Note the packet that exhausts the budget is still appended. -/
def syncRespLoop (byteLimit : Int) : List Packet → List Packet
  | [] => []
  | p :: rest =>
    if byteLimit - (p.length : Int) ≤ 0 then [p]
    else p :: syncRespLoop (byteLimit - (p.length : Int)) rest

/-- The sync part of on_introduction_request for one requesting message:
`bloomMiss p = true` models `p` surviving `payload.bloom_filter.not_filter`
(the packet is missing at the requester).  `timeHigh? = none` models
`payload.has_time_high` being false, in which case the community's global
time is used.  Both bounds are clamped to `2^63 - 1` for the sqlite wrapper. -/
def on_introduction_request_sync (metas : List MetaRow) (db : DB)
    (bloomMiss : Packet → Bool) (limit : Int) (time_low : Nat) (timeHigh? : Option Nat)
    (communityGlobalTime : Nat) (modulo offset : Nat) : List Packet :=
  let th0 := timeHigh?.getD communityGlobalTime
  let tl := min time_low (2 ^ 63 - 1)
  let th := min th0 (2 ^ 63 - 1)
  syncRespLoop limit
    (((List.insertionSort syncOrd (syncQuery metas db tl th offset modulo)).map
        (fun x => x.1.packet)).filter bloomMiss)

/-- Total byte count of a packet list. -/
def sumBytes (ps : List Packet) : Nat :=
  (ps.map (fun p => p.length)).sum

/-! ## Candidate selection of on_introduction_request
(dispersy.py lines 2350-2420) -/

/-- The candidate fields the introduction choice reads. -/
structure WCand where
  lan_address : Addr
  wan_address : Addr
  connection_type : String
deriving DecidableEq

/-- is_valid_candidate (dispersy.py lines 2351-2365): refuse to introduce two
nodes that are both behind a symmetric NAT, unless they share a WAN host. -/
def is_valid_candidate (payloadConn : String) (requesterWanHost : String)
    (introduced : WCand) : Bool :=
  ¬(payloadConn = "symmetric-NAT" ∧ introduced.connection_type = "symmetric-NAT" ∧
      ¬ requesterWanHost = introduced.wan_address.1)

/-- The `for introduced in dispersy_yield_random_candidates ... break / else
None` loop: the first yielded candidate passing `is_valid_candidate`, or none
when the (cycled, hence here exhaustively listed) iterator has no acceptable
entry; no candidate is considered when `advice` is unset. -/
def select_introduced (advice : Bool) (payloadConn : String) (requesterWanHost : String)
    (cands : List WCand) : Option WCand :=
  if advice then cands.find? (is_valid_candidate payloadConn requesterWanHost) else none

/-- The introduced LAN/WAN addresses carried by the introduction response:
the chosen candidate's, or `("0.0.0.0", 0)` twice when nobody is introduced. -/
def response_intro_addresses (sel : Option WCand) : Addr × Addr :=
  match sel with
  | some c => (c.lan_address, c.wan_address)
  | none => (("0.0.0.0", 0), ("0.0.0.0", 0))

/-! ## Request cache (requestcache.py) -/

/-- A cache entry; `kind` models the entry's Python class for the
`isinstance` checks.  Delays are exact rationals (seconds). -/
structure CacheE where
  kind : String
  timeout_delay : ℚ
  cleanup_delay : ℚ
deriving DecidableEq

/-- A callback registered on the scheduler for an identifier. -/
inductive TaskFn where
  | onTimeoutT (identifier : String)
  | onCleanupT (identifier : String)
deriving DecidableEq

/-- The request cache together with the scheduler tasks it registered:
`tasks` maps a scheduler id to the pending callback and its delay. -/
structure RC where
  identifiers : List (String × CacheE)
  tasks : List (String × TaskFn × ℚ)
deriving DecidableEq

/-- The scheduler id `"requestcache-%s" % identifier`. -/
def taskKey (identifier : String) : String :=
  "requestcache-" ++ identifier

def rcLookup (rc : RC) (identifier : String) : Option CacheE :=
  (rc.identifiers.find? (fun p => p.1 = identifier)).map Prod.snd

/-- RequestCache.has: `isinstance(self._identifiers.get(identifier), cls)`. -/
def rc_has (rc : RC) (identifier kind : String) : Bool :=
  match rcLookup rc identifier with
  | some c => c.kind = kind
  | none => false

/-- RequestCache.get. -/
def rc_get (rc : RC) (identifier kind : String) : Option CacheE :=
  match rcLookup rc identifier with
  | some c => if c.kind = kind then some c else none
  | none => none

def registerTask (tasks : List (String × TaskFn × ℚ)) (key : String) (fn : TaskFn) (d : ℚ) :
    List (String × TaskFn × ℚ) :=
  tasks ++ [(key, fn, d)]

def unregisterTask (tasks : List (String × TaskFn × ℚ)) (key : String) :
    List (String × TaskFn × ℚ) :=
  tasks.filter (fun t => t.1 ≠ key)

/-- `replace_register`: drop whatever was scheduled under the id, register
the new callback under the same id. -/
def replaceTask (tasks : List (String × TaskFn × ℚ)) (key : String) (fn : TaskFn) (d : ℚ) :
    List (String × TaskFn × ℚ) :=
  registerTask (unregisterTask tasks key) key fn d

/-- The scheduled callback (and delay) pending under a scheduler id. -/
def taskLookup (tasks : List (String × TaskFn × ℚ)) (key : String) : Option (TaskFn × ℚ) :=
  (tasks.find? (fun t => t.1 = key)).map Prod.snd

/-- RequestCache.set (requestcache.py lines 40-50): register the timeout and
record the entry. -/
def rc_set (rc : RC) (identifier : String) (c : CacheE) : RC :=
  ⟨rc.identifiers ++ [(identifier, c)],
   registerTask rc.tasks (taskKey identifier) (.onTimeoutT identifier) c.timeout_delay⟩

/-- RequestCache.pop (requestcache.py lines 67-84): on a kind-matching live
entry, either move the scheduler task to the cleanup callback (nonzero
`cleanup_delay`, keeping the entry matchable) or unregister and erase at
once; return the entry. -/
def rc_pop (rc : RC) (identifier kind : String) : Option CacheE × RC :=
  match rcLookup rc identifier with
  | some c =>
    if c.kind = kind then
      if c.cleanup_delay ≠ 0 then
        (some c, ⟨rc.identifiers,
                  replaceTask rc.tasks (taskKey identifier) (.onCleanupT identifier) c.cleanup_delay⟩)
      else
        (some c, ⟨rc.identifiers.filter (fun p => p.1 ≠ identifier),
                  unregisterTask rc.tasks (taskKey identifier)⟩)
    else (none, rc)
  | none => (none, rc)

/-- RequestCache._on_cleanup (requestcache.py lines 99-105): the fired cleanup
callback erases the identifier (the scheduler task has already fired; its
one-shot entry is consumed). -/
def rc_on_cleanup (rc : RC) (identifier : String) : RC :=
  ⟨rc.identifiers.filter (fun p => p.1 ≠ identifier),
   unregisterTask rc.tasks (taskKey identifier)⟩

/-- Count of messages among the first `i` batch entries that were accepted for
the given member (used to express how acceptance advances `highest`). -/
def acceptedBefore (msgs : List FSMsg) (outs : List FSOutcome) (member : Nat) (i : Nat) : Nat :=
  ((msgs.zip outs).take i).countP (fun p => p.1.member = member ∧ p.2 = FSOutcome.accept)

end Dispersy

namespace Dispersy

/-! # Theorems -/

theorem inet_aton_three_parts : inet_aton "1.2.3" = some [1, 2, 0, 3] := by decide

/-- Claim C7 (code bug): `is_valid_address` is claimed (and documented in its
own docstring) to accept only valid IPv4 dotted quads, but `inet_aton` also
accepts the abbreviated numbers-and-dots forms, so the host `"1.2.3"` (three
parts, not a dotted quad) is accepted with final byte 3. -/
theorem c7_is_valid_address_accepts_non_quad :
    is_valid_address ("1.2.3", 5) = true ∧ claimValidAddress ("1.2.3", 5) = false := by
  decide

/-- Claim C8 (amended): when an introduction-request with `advice` set is
answered, the candidate chosen by the `is_valid_candidate` scan is never a
symmetric-NAT candidate for a symmetric-NAT requester with a different WAN
host (two symmetric-NAT peers sharing a WAN host may be introduced to each
other); and when no acceptable candidate exists, the response carries the
empty introduction addresses `("0.0.0.0", 0)`. -/
theorem c8_introduction_choice (advice : Bool) (pc host : String) (cands : List WCand) :
    (∀ c, select_introduced advice pc host cands = some c →
      pc = "symmetric-NAT" → c.connection_type = "symmetric-NAT" → host = c.wan_address.1) ∧
    (select_introduced advice pc host cands = none →
      response_intro_addresses (select_introduced advice pc host cands) =
        (("0.0.0.0", 0), ("0.0.0.0", 0))) := by
  constructor
  · intro c hc hpc hcc
    unfold select_introduced at hc
    by_cases ha : advice
    · rw [if_pos ha] at hc
      have hp := List.find?_some hc
      simp only [is_valid_candidate, decide_eq_true_eq] at hp
      by_contra hne
      exact hp ⟨hpc, hcc, hne⟩
    · rw [if_neg ha] at hc
      exact absurd hc (by simp)
  · intro hnone
    rw [hnone]
    rfl

/-- Claim C8 witness: a concrete selection where the chosen candidate and the
requester are both behind a symmetric NAT but share the WAN host `1.2.3.4`. -/
theorem c8_introduction_choice_witness :
    "1.2.3.4" =
      (WCand.mk ("10.0.0.2", 7001) ("1.2.3.4", 7001) "symmetric-NAT").wan_address.1 :=
  (c8_introduction_choice true "symmetric-NAT" "1.2.3.4"
      [WCand.mk ("10.0.0.2", 7001) ("1.2.3.4", 7001) "symmetric-NAT"]).1
    (WCand.mk ("10.0.0.2", 7001) ("1.2.3.4", 7001) "symmetric-NAT") (by decide) rfl rfl

/-- Claim C8 counterexample: as literally stated ("never one whose
connection_type is symmetric-NAT while the requester's advertised
connection_type is also symmetric-NAT") the claim is false: a symmetric-NAT
candidate behind the same WAN host as the symmetric-NAT requester is
introduced. -/
theorem c8_counterexample :
    (select_introduced true "symmetric-NAT" "1.2.3.4"
        [WCand.mk ("10.0.0.2", 7001) ("1.2.3.4", 7001) "symmetric-NAT"]).map
        WCand.connection_type = some "symmetric-NAT" := by
  decide

/-- The packet UPDATE rewrites exactly the row under the (member, gt) key. -/
theorem findRow_updatePacketRows (db : DB) (member gt : Nat) (p : Packet) :
    findRow (updatePacketRows db member gt p) member gt =
      (findRow db member gt).map (fun r => { r with packet := p }) := by
  unfold findRow updatePacketRows
  induction db with
  | nil => rfl
  | cons r rs ih =>
    by_cases h : r.member = member ∧ r.global_time = gt
    · rw [List.map_cons, if_pos h, List.find?_cons_of_pos _ (by simp [h]),
        List.find?_cons_of_pos _ (by simp [h])]
      rfl
    · rw [List.map_cons, if_neg h, List.find?_cons_of_neg _ (by simp [h]),
        List.find?_cons_of_neg _ (by simp [h])]
      exact ih

/-- The by-id UPDATE rewrites exactly the row under the id. -/
theorem findRowById_updateRowById (db : DB) (pid member : Nat) (p : Packet) :
    findRowById (updateRowById db pid member p) pid =
      (findRowById db pid).map (fun r => { r with member := member, packet := p }) := by
  unfold findRowById updateRowById
  induction db with
  | nil => rfl
  | cons r rs ih =>
    by_cases h : r.id = pid
    · rw [List.map_cons, if_pos h, List.find?_cons_of_pos _ (by simp [h]),
        List.find?_cons_of_pos _ (by simp [h])]
      rfl
    · rw [List.map_cons, if_neg h, List.find?_cons_of_neg _ (by simp [h]),
        List.find?_cons_of_neg _ (by simp [h])]
      exact ih

/-- Claim C1 counterexample: stored packet `[7, 0]` and incoming packet
`[7, 1]` differ only in the trailing signature byte (equal first
`signature_length = 1` bytes); the row retained after the duplicate check
holds `[7, 1]`, the lexicographically LARGER packet, not the smaller one the
claim demands. -/
theorem c1_counterexample :
    (is_duplicate_sync_message [⟨1, 1, 5, 1, [7, 0], 0, none⟩] ⟨1, 5, [7, 1], 1⟩).isDup = true ∧
    (findRow (is_duplicate_sync_message [⟨1, 1, 5, 1, [7, 0], 0, none⟩]
        ⟨1, 5, [7, 1], 1⟩).db 1 5).map SyncRow.packet = some [7, 1] ∧
    bytesLt [7, 0] [7, 1] = true := by
  decide

/-- Claim C1 (amended): an incoming sync message whose (community, member,
global_time) triple already has a stored row is dropped as a duplicate; when
the packet bytes are identical and the stored row is undone, the stored
undo-proof packet is sent back to the sender; when the packets differ but
agree outside the signature region the retained row holds the
lexicographically LARGER of the two packet byte strings (the stored packet is
replaced exactly when the incoming packet compares larger), for the
single-member check and for the double-member member-order/signature check
alike. -/
theorem c1_duplicate_policy (db : DB) (m : Msg) (row : SyncRow)
    (hrow : findRow db m.member m.global_time = some row) :
    (row.packet = m.packet →
      (is_duplicate_sync_message db m).isDup = true ∧
      (is_duplicate_sync_message db m).db = db ∧
      (row.undone ≠ 0 →
        ∀ proofRow, findRowById db row.undone = some proofRow →
          (is_duplicate_sync_message db m).actions = [Action.send proofRow.packet])) ∧
    (row.packet ≠ m.packet →
      row.packet.take m.sigLen = m.packet.take m.sigLen →
      (is_duplicate_sync_message db m).isDup = true ∧
      (findRow (is_duplicate_sync_message db m).db m.member m.global_time).map SyncRow.packet =
        some (if bytesLt row.packet m.packet then m.packet else row.packet)) ∧
    (∀ pid hp (dm : DMsg) (prow : SyncRow),
      findRowById db pid = some prow →
      prow.packet = hp →
      hp ≠ dm.packet →
      hp.take 23 = dm.packet.take 23 →
      (hp.drop 63).take (dm.sigLenSum - 63) = (dm.packet.drop 63).take (dm.sigLenSum - 63) →
      (findRowById (double_member_duplicate db pid hp dm).2 pid).map SyncRow.packet =
        some (if bytesLt hp dm.packet then dm.packet else hp)) := by
  refine ⟨?_, ?_, ?_⟩
  · intro heq
    unfold is_duplicate_sync_message
    rw [hrow]
    dsimp only
    rw [if_pos heq]
    by_cases hu : row.undone ≠ 0
    · rw [if_pos hu]
      rcases hpf : findRowById db row.undone with _ | proofRow
      · refine ⟨rfl, rfl, fun _ q hq => ?_⟩
        exact absurd hq (by simp)
      · refine ⟨rfl, rfl, fun _ q hq => ?_⟩
        cases hq
        rfl
    · rw [if_neg hu]
      exact ⟨rfl, rfl, fun h => absurd h hu⟩
  · intro hne hpre
    unfold is_duplicate_sync_message
    rw [hrow]
    dsimp only
    rw [if_neg hne, if_pos hpre]
    by_cases hlt : bytesLt row.packet m.packet = true
    · rw [if_pos hlt]
      refine ⟨rfl, ?_⟩
      rw [if_pos hlt]
      dsimp only
      rw [findRow_updatePacketRows, hrow]
      rfl
    · rw [if_neg hlt]
      refine ⟨rfl, ?_⟩
      rw [if_neg hlt]
      dsimp only
      rw [hrow]
      rfl
  · intro pid hp dm prow hpf hpp hne hpre1 hpre2
    unfold double_member_duplicate
    rw [if_neg hne, if_pos ⟨hpre1, hpre2⟩]
    by_cases hlt : bytesLt hp dm.packet = true
    · rw [if_pos hlt]
      dsimp only
      rw [if_pos hlt, findRowById_updateRowById, hpf]
      rfl
    · rw [if_neg hlt]
      dsimp only
      rw [if_neg hlt, hpf]
      show some prow.packet = some hp
      rw [hpp]

/-- Claim C1 witness: concrete database with one undone row; an identical
duplicate echoes the undo proof, and the differing-signature case retains the
larger packet. -/
theorem c1_duplicate_policy_witness :
    (is_duplicate_sync_message
        [⟨1, 1, 5, 1, [7, 0], 2, none⟩, ⟨2, 1, 6, 1, [9, 9], 0, none⟩]
        ⟨1, 5, [7, 0], 1⟩).actions = [Action.send [9, 9]] :=
  (((c1_duplicate_policy
        [⟨1, 1, 5, 1, [7, 0], 2, none⟩, ⟨2, 1, 6, 1, [9, 9], 0, none⟩]
        ⟨1, 5, [7, 0], 1⟩ ⟨1, 1, 5, 1, [7, 0], 2, none⟩ (by decide)).1 rfl).2.2
      (by decide) ⟨2, 1, 6, 1, [9, 9], 0, none⟩ (by decide))

/-- Mapping with a function that never changes whether the predicate holds
preserves whether `find?` succeeds. -/
theorem find?_isSome_map_keep {α : Type} (f : α → α) (p : α → Bool)
    (hf : ∀ x, p (f x) = p x) (l : List α) :
    ((l.map f).find? p).isSome = (l.find? p).isSome := by
  induction l with
  | nil => rfl
  | cons x xs ih =>
    by_cases h : p x = true
    · simp [List.find?_cons, hf, h]
    · simp only [List.map_cons, List.find?_cons, hf x, h]
      simp only [Bool.false_eq_true] at h
      simp only [h, ih]

/-- Adding a vote makes the voted address a present key. -/
theorem votesAdd_find?_isSome (votes : List (Addr × List Addr)) (a sock : Addr) :
    ((votesAdd votes a sock).find? (fun p => p.1 = a)).isSome := by
  unfold votesAdd
  by_cases h : ((votes.find? (fun p => p.1 = a)).isSome : Prop)
  · rw [if_pos h, find?_isSome_map_keep]
    · exact h
    · intro x
      by_cases hx : x.1 = a <;> simp [hx]
  · rw [if_neg h, List.find?_append]
    rcases ho : votes.find? (fun p => p.1 = a) with _ | v
    · rw [ho]
      simp
    · exact absurd (by rw [ho]; rfl) h

/-- Every entry of the votes map stored under the voted address is a
non-empty voter set after `votesAdd`. -/
theorem votesAdd_value_ne_nil (votes : List (Addr × List Addr)) (a sock : Addr) :
    ∀ q ∈ votesAdd votes a sock, q.1 = a → q.2 ≠ [] := by
  intro q hq hqa
  unfold votesAdd at hq
  by_cases h : ((votes.find? (fun p => p.1 = a)).isSome : Prop)
  · rw [if_pos h] at hq
    rcases List.mem_map.mp hq with ⟨p, hp, hpq⟩
    by_cases hpa : p.1 = a
    · rw [if_pos hpa] at hpq
      by_cases hs : sock ∈ p.2
      · rw [if_pos hs] at hpq
        rw [← hpq]
        exact List.ne_nil_of_mem hs
      · rw [if_neg hs] at hpq
        rw [← hpq]
        simp
    · rw [if_neg hpa] at hpq
      rw [← hpq] at hqa
      exact absurd hqa hpa
  · rw [if_neg h] at hq
    rcases List.mem_append.mp hq with h1 | h2
    · exfalso
      apply h
      rcases ho : votes.find? (fun p => p.1 = a) with _ | v
      · rw [List.find?_eq_none] at ho
        exact absurd (by simp [hqa]) (ho q h1)
      · rw [ho]
        rfl
    · simp only [List.mem_singleton] at h2
      rw [h2]
      simp

/-- Claim C3 counterexample: three voters, one for `2.2.2.2:2` and two for
`3.3.3.3:3`, leave `wan_address` at `2.2.2.2:2` although `3.3.3.3:3` holds
strictly more votes — the claimed argmax property fails. -/
theorem c3_counterexample :
    (votesLookup
        (wan_address_vote
          (wan_address_vote
            (wan_address_vote ⟨("10.0.0.1", 1), ("1.1.1.1", 1), "unknown", [], [], []⟩
              ("2.2.2.2", 2) ⟨("9.9.9.1", 1), ("9.9.9.1", 1)⟩)
            ("3.3.3.3", 3) ⟨("9.9.9.2", 1), ("9.9.9.2", 1)⟩)
          ("3.3.3.3", 3) ⟨("9.9.9.3", 1), ("9.9.9.3", 1)⟩).wan_address_votes
        ("3.3.3.3", 3)).length = 2 ∧
    (votesLookup
        (wan_address_vote
          (wan_address_vote
            (wan_address_vote ⟨("10.0.0.1", 1), ("1.1.1.1", 1), "unknown", [], [], []⟩
              ("2.2.2.2", 2) ⟨("9.9.9.1", 1), ("9.9.9.1", 1)⟩)
            ("3.3.3.3", 3) ⟨("9.9.9.2", 1), ("9.9.9.2", 1)⟩)
          ("3.3.3.3", 3) ⟨("9.9.9.3", 1), ("9.9.9.3", 1)⟩).wan_address_votes
        ("2.2.2.2", 2)).length = 1 ∧
    (wan_address_vote
        (wan_address_vote
          (wan_address_vote ⟨("10.0.0.1", 1), ("1.1.1.1", 1), "unknown", [], [], []⟩
            ("2.2.2.2", 2) ⟨("9.9.9.1", 1), ("9.9.9.1", 1)⟩)
          ("3.3.3.3", 3) ⟨("9.9.9.2", 1), ("9.9.9.2", 1)⟩)
        ("3.3.3.3", 3) ⟨("9.9.9.3", 1), ("9.9.9.3", 1)⟩).wan_address =
      ("2.2.2.2", 2) := by
  decide

/-- Claim C3 (amended): after a call to `wan_address_vote` the WAN address is
either unchanged, or it has become the voted address and that address is the
only address holding votes; in particular, when the voted address differs
from the current one and their (per-voter-deduplicated) vote counts tie, the
WAN address is unchanged.  The address with the most votes does NOT always
win: whenever more than one address holds votes the current address is kept
(and the connection type is flagged symmetric-NAT instead). -/
theorem c3_wan_vote_update_rule (s : NodeState) (address : Addr) (voter : Voter) :
    ((wan_address_vote s address voter).wan_address = s.wan_address ∨
      ((wan_address_vote s address voter).wan_address = address ∧
        (wan_address_vote s address voter).wan_address_votes.map Prod.fst = [address])) ∧
    (address ≠ s.wan_address ∧
        (votesLookup (wan_address_vote s address voter).wan_address_votes address).length =
          (votesLookup (wan_address_vote s address voter).wan_address_votes s.wan_address).length →
      (wan_address_vote s address voter).wan_address = s.wan_address) := by
  have main : (wan_address_vote s address voter).wan_address = s.wan_address ∨
      ((wan_address_vote s address voter).wan_address = address ∧
        (wan_address_vote s address voter).wan_address_votes.map Prod.fst = [address]) := by
    unfold wan_address_vote
    by_cases h1 : s.wan_address.1 = voter.wan_address.1 ∨ s.wan_address.1 = voter.sock_addr.1
    · rw [if_pos h1]
      exact Or.inl rfl
    · rw [if_neg h1]
      by_cases h2 : ¬ (is_valid_address address = true)
      · rw [if_pos h2]
        exact Or.inl rfl
      · rw [if_neg h2]
        have hfix : ∀ s1 : NodeState, (wanCtFix s1).wan_address = s1.wan_address ∧
            (wanCtFix s1).wan_address_votes = s1.wan_address_votes := by
          intro s1
          unfold wanCtFix
          split <;> exact ⟨rfl, rfl⟩
        set votes := votesAdd (wan_address_unvote s.wan_address_votes voter.sock_addr)
          address voter.sock_addr with hv
        unfold wanVoteCore
        by_cases h3 : s.wan_address ≠ address ∧
            (votesLookup votes s.wan_address).length ≤ (votesLookup votes address).length
        · rw [if_pos h3]
          by_cases h4 : 1 < votes.length
          · rw [if_pos h4]
            rw [(hfix _).1]
            exact Or.inl rfl
          · rw [if_neg h4]
            rw [(hfix _).1, (hfix _).2]
            refine Or.inr ⟨rfl, ?_⟩
            have hsome := votesAdd_find?_isSome
              (wan_address_unvote s.wan_address_votes voter.sock_addr) address voter.sock_addr
            rw [← hv] at hsome
            rcases hf : votes.find? (fun p => p.1 = address) with _ | v
            · rw [hf] at hsome
              exact absurd hsome (by simp)
            · have hvm := List.mem_of_find?_eq_some hf
              have hlen1 : votes.length = 1 := by
                rcases votes with _ | ⟨x, ⟨_ | ⟨y, ys⟩⟩⟩
                · exact absurd hvm (by simp)
                · rfl
                · exact absurd (by simp only [List.length_cons]; omega) h4
              rcases List.length_eq_one.mp hlen1 with ⟨x, hx⟩
              have hxv : v = x := by
                rw [hx] at hvm
                simpa using hvm
              have hpx := List.find?_some hf
              rw [hxv] at hpx
              simp only [decide_eq_true_eq] at hpx
              rw [hx, List.map_cons, List.map_nil, hpx]
        · rw [if_neg h3]
          rw [(hfix _).1]
          exact Or.inl rfl
  refine ⟨main, fun htie => ?_⟩
  rcases main with h | ⟨hwan, hkeys⟩
  · exact h
  · exfalso
    rcases htie with ⟨hne, hcnt⟩
    have hwanlook : votesLookup (wan_address_vote s address voter).wan_address_votes
        s.wan_address = [] := by
      unfold votesLookup
      rcases hf : (wan_address_vote s address voter).wan_address_votes.find?
          (fun p => p.1 = s.wan_address) with _ | v
      · rw [hf]
        rfl
      · have hvm := List.mem_of_find?_eq_some hf
        have hp := List.find?_some hf
        simp only [decide_eq_true_eq] at hp
        have hmem : v.1 ∈ (wan_address_vote s address voter).wan_address_votes.map Prod.fst :=
          List.mem_map.mpr ⟨v, hvm, rfl⟩
        rw [hkeys] at hmem
        simp only [List.mem_singleton] at hmem
        exact (hne (by rw [← hmem, hp])).elim
    have haddrlook : votesLookup (wan_address_vote s address voter).wan_address_votes
        address ≠ [] := by
      unfold votesLookup
      rcases hf : (wan_address_vote s address voter).wan_address_votes.find?
          (fun p => p.1 = address) with _ | v
      · rw [List.find?_eq_none] at hf
        have : address ∈ (wan_address_vote s address voter).wan_address_votes.map Prod.fst := by
          rw [hkeys]; simp
        rcases List.mem_map.mp this with ⟨q, hq, hq1⟩
        exact absurd (by simp [hq1]) (hf q hq)
      · have hvm := List.mem_of_find?_eq_some hf
        have hp := List.find?_some hf
        simp only [decide_eq_true_eq] at hp
        -- v is the single votes entry keyed by address; show the result of a
        -- wan_address_vote always stores non-empty voter sets under the voted
        -- address on the branch where keys = [address]
        rw [hf]
        show v.2 ≠ []
        -- on this branch the votes map of the result is votesAdd (...)
        unfold wan_address_vote at hvm hkeys
        by_cases h1 : s.wan_address.1 = voter.wan_address.1 ∨ s.wan_address.1 = voter.sock_addr.1
        · rw [if_pos h1] at hvm hkeys
          -- then wan_address is unchanged, contradicting hwan
          exact absurd (by
            have hx := hwan
            unfold wan_address_vote at hx
            rw [if_pos h1] at hx
            exact hx) (Ne.symm hne)
        · rw [if_neg h1] at hvm hkeys
          by_cases h2 : ¬ (is_valid_address address = true)
          · rw [if_pos h2] at hvm hkeys
            exact absurd (by
              have hx := hwan
              unfold wan_address_vote at hx
              rw [if_neg h1, if_pos h2] at hx
              exact hx) (Ne.symm hne)
          · rw [if_neg h2] at hvm hkeys
            have hfixv : ∀ s1 : NodeState,
                (wanCtFix s1).wan_address_votes = s1.wan_address_votes := by
              intro s1
              unfold wanCtFix
              split <;> rfl
            rw [hfixv] at hvm
            have hcore : ∀ vts, (wanVoteCore s address vts).wan_address_votes = vts := by
              intro vts
              unfold wanVoteCore
              split
              · split <;> rfl
              · rfl
            rw [hcore] at hvm
            exact votesAdd_value_ne_nil _ _ _ v hvm hp
    rw [hwanlook] at hcnt
    simp only [List.length_nil] at hcnt
    exact haddrlook (List.length_eq_zero.mp hcnt)

/-- Claim C3 witness: a first vote for a fresh address from a distinct-LAN
voter adopts it — the second disjunct of the amended rule at a concrete
input, and the tie clause vacuously. -/
theorem c3_wan_vote_update_rule_witness :
    (wan_address_vote ⟨("10.0.0.1", 1), ("1.1.1.1", 1), "unknown", [], [], []⟩
        ("2.2.2.2", 2) ⟨("9.9.9.1", 1), ("9.9.9.1", 1)⟩).wan_address = ("2.2.2.2", 2) := by
  rcases (c3_wan_vote_update_rule ⟨("10.0.0.1", 1), ("1.1.1.1", 1), "unknown", [], [], []⟩
      ("2.2.2.2", 2) ⟨("9.9.9.1", 1), ("9.9.9.1", 1)⟩).1 with h | h
  · exact absurd h (by decide)
  · exact h.1

/-- Python `min` is a lower bound of the list. -/
theorem pyMin_le_of_mem : ∀ {l : List Nat} {a : Nat}, a ∈ l → pyMin l ≤ a := by
  intro l
  induction l with
  | nil => intro a ha; exact absurd ha (by simp)
  | cons x xs ih =>
    intro a ha
    cases xs with
    | nil =>
      simp only [List.mem_singleton] at ha
      rw [ha]
      exact le_refl _
    | cons y ys =>
      rcases List.mem_cons.mp ha with h | h
      · rw [h]
        exact min_le_left _ _
      · exact le_trans (min_le_right _ _) (ih h)

/-- Claim C4: a last-sync message whose member already has a full history
(`len(tim) ≥ history_size`) and whose global time is older than the stored
minimum is dropped as old without storing anything (the batch `unique` key is
still recorded and the first-sight `times` load is kept, but `tim` and the
database are untouched), and when `history_size = 1` the member's newest
stored packet is sent back to the sender. -/
theorem c4_last_sync_drop_old (meta : Nat) (st : LSState) (m : LSMsg)
    (hu : (m.member, m.global_time) ∉ st.unique)
    (hfull : m.history_size ≤ (lsTim meta st m).length)
    (hold : m.global_time < pyMin (lsTim meta st m)) :
    check_member_and_global_time meta st m =
      (.dropOld, ⟨(m.member, m.global_time) :: st.unique, lsTimes0 meta st m, st.db⟩,
        if m.history_size = 1 then
          match dbNewestPacket st.db m.member with
          | some p => [Action.send p]
          | none => []
        else []) := by
  have hnotin : m.global_time ∉ lsTim meta st m := fun hmem =>
    absurd (pyMin_le_of_mem hmem) (by omega)
  unfold check_member_and_global_time
  rw [if_neg hu, if_neg hnotin]
  unfold lsAfterDup
  rw [if_pos ⟨hfull, hold⟩]

/-- Claim C4 witness: history size 1 with stored global time 5; an incoming
global time 3 is dropped as old and the newer stored packet `[9]` is sent
back. -/
theorem c4_last_sync_drop_old_witness :
    check_member_and_global_time 1 ⟨[], [], [⟨1, 1, 5, 1, [9], 0, none⟩]⟩ ⟨1, 3, [8], 1, 1⟩ =
      (.dropOld, ⟨[(1, 3)], [(1, [5])], [⟨1, 1, 5, 1, [9], 0, none⟩]⟩, [Action.send [9]]) := by
  rw [c4_last_sync_drop_old 1 ⟨[], [], [⟨1, 1, 5, 1, [9], 0, none⟩]⟩ ⟨1, 3, [8], 1, 1⟩
    (by decide) (by decide) (by decide)]
  decide

/-- Every packet the byte-limited loop emits comes from its input list. -/
theorem syncRespLoop_mem (bl : Int) (ps : List Packet) :
    ∀ p ∈ syncRespLoop bl ps, p ∈ ps := by
  induction ps generalizing bl with
  | nil =>
    intro p hp
    exact absurd hp (by simp [syncRespLoop])
  | cons q qs ih =>
    intro p hp
    unfold syncRespLoop at hp
    by_cases h : bl - (q.length : Int) ≤ 0
    · rw [if_pos h] at hp
      simp only [List.mem_singleton] at hp
      exact List.mem_cons.mpr (Or.inl hp)
    · rw [if_neg h] at hp
      rcases List.mem_cons.mp hp with h1 | h1
      · exact List.mem_cons.mpr (Or.inl h1)
      · exact List.mem_cons.mpr (Or.inr (ih _ p h1))

theorem sumBytes_cons (p : Packet) (l : List Packet) :
    sumBytes (p :: l) = p.length + sumBytes l := by
  simp [sumBytes]

/-- All but the last emitted packet fit strictly within the byte budget: each
packet is appended only while the remaining budget is positive. -/
theorem syncRespLoop_budget (ps : List Packet) :
    ∀ bl : Int, 0 < bl → (sumBytes (syncRespLoop bl ps).dropLast : Int) < bl := by
  induction ps with
  | nil =>
    intro bl hbl
    simpa [syncRespLoop, sumBytes] using hbl
  | cons q qs ih =>
    intro bl hbl
    unfold syncRespLoop
    by_cases h : bl - (q.length : Int) ≤ 0
    · rw [if_pos h]
      simpa [sumBytes] using hbl
    · rw [if_neg h]
      rcases hqs : syncRespLoop (bl - (q.length : Int)) qs with _ | ⟨r, rs⟩
      · simpa [sumBytes] using hbl
      · have hrec := ih (bl - (q.length : Int)) (by omega)
        rw [hqs] at hrec
        rw [List.dropLast_cons₂, sumBytes_cons]
        push_cast at hrec ⊢
        omega

/-- Claim C6 counterexample: with `dispersy_sync_response_limit = 10` bytes, a
single missing 15-byte packet is still transmitted whole — the claimed bound
"total bytes sent do not exceed the limit" fails, because the loop deducts
the packet size before checking the budget. -/
theorem c6_counterexample :
    (10 : Int) <
      (sumBytes (on_introduction_request_sync [⟨1, 33, 1, true⟩]
        [⟨1, 1, 1, 1, List.replicate 15 7, 0, none⟩]
        (fun _ => true) 10 0 (some 5) 5 1 0) : Int) := by
  decide

/-- Claim C6 (amended): every packet transmitted for a sync descriptor comes
from a stored row of a sync meta-message with priority > 32, not undone, with
global time in `[time_low, time_high]` and `(global_time + offset) % modulo
== 0`; and the transmission stops with the first packet that reaches the
byte limit, so the total bytes sent excluding the final packet are strictly
below `dispersy_sync_response_limit` (the final packet may overshoot). -/
theorem c6_sync_response_properties (metas : List MetaRow) (db : DB)
    (bloomMiss : Packet → Bool) (limit : Int) (time_low : Nat) (timeHigh? : Option Nat)
    (cgt modulo offset : Nat)
    (hlim : 0 < limit)
    (htl : time_low ≤ 2 ^ 63 - 1) (hth : timeHigh?.getD cgt ≤ 2 ^ 63 - 1) :
    (∀ p ∈ on_introduction_request_sync metas db bloomMiss limit time_low timeHigh? cgt
        modulo offset,
      ∃ r ∈ db, r.packet = p ∧ r.undone = 0 ∧
        time_low ≤ r.global_time ∧ r.global_time ≤ timeHigh?.getD cgt ∧
        (r.global_time + offset) % modulo = 0 ∧
        ∃ mm ∈ metas, mm.id = r.meta ∧ mm.isSync = true ∧ 32 < mm.priority) ∧
    (sumBytes (on_introduction_request_sync metas db bloomMiss limit time_low timeHigh? cgt
        modulo offset).dropLast : Int) < limit := by
  constructor
  · intro p hp
    simp only [on_introduction_request_sync] at hp
    rw [min_eq_left htl, min_eq_left hth] at hp
    have hp2 := syncRespLoop_mem _ _ p hp
    have hp3 := List.mem_of_mem_filter hp2
    rcases List.mem_map.mp hp3 with ⟨x, hx, hxp⟩
    have hx2 : x ∈ syncQuery metas db time_low (timeHigh?.getD cgt) offset modulo :=
      (List.perm_insertionSort syncOrd _).subset hx
    unfold syncQuery at hx2
    rcases List.mem_filterMap.mp hx2 with ⟨r, hr, hfm⟩
    rcases hmm : metas.find? (fun mm => mm.id = r.meta) with _ | mm
    · rw [hmm] at hfm
      exact absurd hfm (by simp)
    · rw [hmm] at hfm
      dsimp only at hfm
      by_cases hcond : r.meta ∈ syncableIds metas ∧ r.undone = 0 ∧ time_low ≤ r.global_time ∧
          r.global_time ≤ timeHigh?.getD cgt ∧ (r.global_time + offset) % modulo = 0
      · rw [if_pos hcond] at hfm
        cases hfm
        refine ⟨r, hr, hxp, hcond.2.1, hcond.2.2.1, hcond.2.2.2.1, hcond.2.2.2.2, ?_⟩
        rcases hcond.1 with hsync
        unfold syncableIds at hsync
        rcases List.mem_map.mp hsync with ⟨mm', hmm', hid⟩
        have hmem := List.mem_filter.mp hmm'
        have hpred := hmem.2
        simp only [decide_eq_true_eq] at hpred
        exact ⟨mm', hmem.1, hid, by simp [hpred.1], hpred.2⟩
      · rw [if_neg hcond] at hfm
        exact absurd hfm (by simp)
  · unfold on_introduction_request_sync
    exact syncRespLoop_budget _ limit hlim

/-- Claim C6 witness: a concrete response where the only candidate packet
fits, exercising both the selector property and the byte bound. -/
theorem c6_sync_response_properties_witness :
    (sumBytes (on_introduction_request_sync [⟨1, 33, 1, true⟩]
        [⟨1, 1, 1, 1, [7, 7], 0, none⟩]
        (fun _ => true) 10 0 (some 5) 5 1 0).dropLast : Int) < 10 :=
  (c6_sync_response_properties [⟨1, 33, 1, true⟩] [⟨1, 1, 1, 1, [7, 7], 0, none⟩]
      (fun _ => true) 10 0 (some 5) 5 1 0 (by decide) (by decide) (by decide)).2

theorem lookupD_of_find? (h : List (Nat × Nat)) (k v : Nat)
    (hf : h.find? (fun p => p.1 = k) = some (k, v)) : lookupD h k = v := by
  unfold lookupD
  rw [hf]
  rfl

theorem find?_setKey_self (h : List (Nat × Nat)) (k v : Nat) (q : Nat × Nat)
    (hf : h.find? (fun p => p.1 = k) = some q) :
    (setKey h k v).find? (fun p => p.1 = k) = some (k, v) := by
  unfold setKey
  induction h with
  | nil => exact absurd hf (by simp)
  | cons p ps ih =>
    by_cases hp : p.1 = k
    · rw [List.map_cons, if_pos hp, List.find?_cons_of_pos _ (by simp)]
    · rw [List.map_cons, if_neg hp, List.find?_cons_of_neg _ (by simp [hp])]
      rw [List.find?_cons_of_neg _ (by simp [hp])] at hf
      exact ih hf

theorem find?_setKey_ne (h : List (Nat × Nat)) (k v k2 : Nat) (hne : k2 ≠ k) :
    (setKey h k v).find? (fun p => p.1 = k2) = h.find? (fun p => p.1 = k2) := by
  unfold setKey
  induction h with
  | nil => rfl
  | cons p ps ih =>
    by_cases hp : p.1 = k
    · rw [List.map_cons, if_pos hp, List.find?_cons_of_neg _ (by simp [Ne.symm hne]),
        List.find?_cons_of_neg _ (by simp [hp, Ne.symm hne])]
      exact ih
    · by_cases hp2 : p.1 = k2
      · rw [List.map_cons, if_neg hp, List.find?_cons_of_pos _ (by simp [hp2]),
          List.find?_cons_of_pos _ (by simp [hp2])]
      · rw [List.map_cons, if_neg hp, List.find?_cons_of_neg _ (by simp [hp2]),
          List.find?_cons_of_neg _ (by simp [hp2])]
        exact ih

/-- The packet-rewriting UPDATE never adds or removes a (member, gt) key. -/
theorem findRow_isSome_updatePacketRows (db : DB) (mem0 gt0 : Nat) (p : Packet)
    (member gt : Nat) :
    (findRow (updatePacketRows db mem0 gt0 p) member gt).isSome =
      (findRow db member gt).isSome := by
  unfold findRow updatePacketRows
  induction db with
  | nil => rfl
  | cons r rs ih =>
    by_cases h : r.member = mem0 ∧ r.global_time = gt0
    · by_cases h2 : r.member = member ∧ r.global_time = gt
      · rw [List.map_cons, if_pos h, List.find?_cons_of_pos _ (by simp [h2]),
          List.find?_cons_of_pos _ (by simp [h2])]
        rfl
      · rw [List.map_cons, if_pos h, List.find?_cons_of_neg _ (by simp [h2]),
          List.find?_cons_of_neg _ (by simp [h2])]
        exact ih
    · by_cases h2 : r.member = member ∧ r.global_time = gt
      · rw [List.map_cons, if_neg h, List.find?_cons_of_pos _ (by simp [h2]),
          List.find?_cons_of_pos _ (by simp [h2])]
      · rw [List.map_cons, if_neg h, List.find?_cons_of_neg _ (by simp [h2]),
          List.find?_cons_of_neg _ (by simp [h2])]
        exact ih

/-- The duplicate probe may rewrite a stored packet but never adds or removes
a (member, gt) key. -/
theorem isDup_db_findRow_isSome (db : DB) (m0 : Msg) (member gt : Nat) :
    (findRow (is_duplicate_sync_message db m0).db member gt).isSome =
      (findRow db member gt).isSome := by
  unfold is_duplicate_sync_message
  rcases h : findRow db m0.member m0.global_time with _ | row
  · rfl
  · dsimp only
    by_cases h1 : row.packet = m0.packet
    · rw [if_pos h1]
      by_cases h2 : row.undone ≠ 0
      · rw [if_pos h2]
        cases findRowById db row.undone <;> rfl
      · rw [if_neg h2]
    · rw [if_neg h1]
      by_cases h3 : row.packet.take m0.sigLen = m0.packet.take m0.sigLen
      · rw [if_pos h3]
        by_cases h4 : bytesLt row.packet m0.packet = true
        · rw [if_pos h4]
          exact findRow_isSome_updatePacketRows db m0.member m0.global_time m0.packet member gt
        · rw [if_neg h4]
      · rw [if_neg h3]

/-- A message is reported duplicate exactly when its (member, gt) row exists. -/
theorem isDup_eq_findRow_isSome (db : DB) (m0 : Msg) :
    (is_duplicate_sync_message db m0).isDup =
      (findRow db m0.member m0.global_time).isSome := by
  unfold is_duplicate_sync_message
  rcases h : findRow db m0.member m0.global_time with _ | row
  · rfl
  · dsimp only
    split_ifs <;> first | rfl | (cases findRowById db row.undone <;> rfl)

/-- Two options with equal `isSome` are simultaneously `none`. -/
theorem option_none_congr {α β : Type} {o1 : Option α} {o2 : Option β}
    (h : o1.isSome = o2.isSome) : o1 = none ↔ o2 = none := by
  cases o1 <;> cases o2 <;> simp_all

theorem acceptedBefore_zero (msgs : List FSMsg) (outs : List FSOutcome) (member : Nat) :
    acceptedBefore msgs outs member 0 = 0 := by
  simp [acceptedBefore]

theorem acceptedBefore_cons_succ (m : FSMsg) (ms : List FSMsg) (o : FSOutcome)
    (os : List FSOutcome) (member i : Nat) :
    acceptedBefore (m :: ms) (o :: os) member (i + 1) =
      (if m.member = member ∧ o = FSOutcome.accept then 1 else 0) +
        acceptedBefore ms os member i := by
  unfold acceptedBefore
  rw [List.zip_cons_cons, List.take_succ_cons, List.countP_cons]
  by_cases h : m.member = member ∧ o = FSOutcome.accept
  · rw [if_pos h, if_pos (by simpa using h)]
    omega
  · rw [if_neg h, if_neg (by simpa using h)]
    omega

theorem fsInitHighest_value (db : DB) (meta : Nat) :
    ∀ (msgs : List FSMsg) (h0 : List (Nat × Nat)),
      (∀ p ∈ h0, p.2 = dbCount db p.1 meta) →
      ∀ p ∈ fsInitHighest db meta msgs h0, p.2 = dbCount db p.1 meta := by
  intro msgs
  induction msgs with
  | nil =>
    intro h0 hinv p hp
    exact hinv p hp
  | cons m rest ih =>
    intro h0 hinv p hp
    unfold fsInitHighest at hp
    by_cases h : ((h0.find? (fun q => q.1 = m.member)).isSome : Prop)
    · rw [if_pos h] at hp
      exact ih h0 hinv p hp
    · rw [if_neg h] at hp
      refine ih _ ?_ p hp
      intro q hq
      rcases List.mem_append.mp hq with h1 | h1
      · exact hinv q h1
      · simp only [List.mem_singleton] at h1
        rw [h1]

theorem fsInitHighest_mono (db : DB) (meta : Nat) (pr : Nat × Nat → Bool) :
    ∀ (msgs : List FSMsg) (h0 : List (Nat × Nat)),
      (h0.find? pr).isSome →
      ((fsInitHighest db meta msgs h0).find? pr).isSome := by
  intro msgs
  induction msgs with
  | nil => intro h0 hs; exact hs
  | cons m rest ih =>
    intro h0 hs
    unfold fsInitHighest
    by_cases h : ((h0.find? (fun q => q.1 = m.member)).isSome : Prop)
    · rw [if_pos h]
      exact ih h0 hs
    · rw [if_neg h]
      refine ih _ ?_
      rw [List.find?_append]
      rcases hf : h0.find? pr with _ | q
      · rw [hf] at hs
        exact absurd hs (by simp)
      · rfl

theorem fsInitHighest_presence (db : DB) (meta : Nat) :
    ∀ (msgs : List FSMsg) (h0 : List (Nat × Nat)) (m : FSMsg), m ∈ msgs →
      ((fsInitHighest db meta msgs h0).find? (fun p => p.1 = m.member)).isSome := by
  intro msgs
  induction msgs with
  | nil => intro h0 m hm; exact absurd hm (by simp)
  | cons m0 rest ih =>
    intro h0 m hm
    rcases List.mem_cons.mp hm with rfl | hm'
    · unfold fsInitHighest
      by_cases h : ((h0.find? (fun q => q.1 = m.member)).isSome : Prop)
      · rw [if_pos h]
        exact fsInitHighest_mono db meta _ rest h0 h
      · rw [if_neg h]
        refine fsInitHighest_mono db meta _ rest _ ?_
        rw [List.find?_append]
        rcases hf : h0.find? (fun p => p.1 = m.member) with _ | q
        · rw [hf]
          simp
        · rw [hf]
          rfl
    · unfold fsInitHighest
      by_cases h : ((h0.find? (fun q => q.1 = m0.member)).isSome : Prop)
      · rw [if_pos h]
        exact ih h0 m hm'
      · rw [if_neg h]
        exact ih _ m hm'

/-- The `highest` dict built before the loop holds the per-member stored
count for every member of the batch. -/
theorem fsInitHighest_find? (db : DB) (meta : Nat) (msgs : List FSMsg) :
    ∀ m ∈ msgs, (fsInitHighest db meta msgs []).find? (fun p => p.1 = m.member) =
      some (m.member, dbCount db m.member meta) := by
  intro m hm
  have hs := fsInitHighest_presence db meta msgs [] m hm
  rcases hf : (fsInitHighest db meta msgs []).find? (fun p => p.1 = m.member) with _ | q
  · rw [hf] at hs
    exact absurd hs (by simp)
  · have hq1 : q.1 = m.member := by
      have := List.find?_some hf
      simpa using this
    have hq2 : q.2 = dbCount db q.1 meta :=
      fsInitHighest_value db meta msgs [] (by simp) q (List.mem_of_find?_eq_some hf)
    have hq : q = (m.member, dbCount db m.member meta) := by
      rcases q with ⟨qa, qb⟩
      simp only at hq1 hq2
      rw [hq1] at hq2 ⊢
      rw [hq2]
    rw [hf, hq]

/-- Loop invariant of the sequence-number check: position `i` of the batch is
dropped as a sequence duplicate when its number is at most `highest` (the base
count plus the acceptances so far for that member), delayed with exactly the
missing range when it is more than one ahead, and otherwise accepted exactly
when no (member, gt) row exists. -/
theorem fsLoop_spec (acceptable : Nat) :
    ∀ (msgs : List FSMsg) (u h : List (Nat × Nat)) (db : DB) (base : Nat → Nat),
      (∀ m ∈ msgs, h.find? (fun p => p.1 = m.member) = some (m.member, base m.member)) →
      ∀ i (hi : i < msgs.length),
        (msgs.get ⟨i, hi⟩).global_time ≤ acceptable →
        ((msgs.get ⟨i, hi⟩).member, (msgs.get ⟨i, hi⟩).global_time) ∉ u →
        (∀ j (hj : j < i),
          ¬((msgs.get ⟨j, Nat.lt_trans hj hi⟩).member = (msgs.get ⟨i, hi⟩).member ∧
            (msgs.get ⟨j, Nat.lt_trans hj hi⟩).global_time = (msgs.get ⟨i, hi⟩).global_time)) →
        ((msgs.get ⟨i, hi⟩).seq ≤
            base (msgs.get ⟨i, hi⟩).member +
              acceptedBefore msgs (fsLoop acceptable msgs u h db).1 (msgs.get ⟨i, hi⟩).member i →
          (fsLoop acceptable msgs u h db).1.get? i = some FSOutcome.dropSeqDup) ∧
        (base (msgs.get ⟨i, hi⟩).member +
              acceptedBefore msgs (fsLoop acceptable msgs u h db).1 (msgs.get ⟨i, hi⟩).member i +
              1 < (msgs.get ⟨i, hi⟩).seq →
          (fsLoop acceptable msgs u h db).1.get? i =
            some (FSOutcome.delaySeq
              (base (msgs.get ⟨i, hi⟩).member +
                acceptedBefore msgs (fsLoop acceptable msgs u h db).1
                  (msgs.get ⟨i, hi⟩).member i + 1)
              ((msgs.get ⟨i, hi⟩).seq - 1))) ∧
        ((msgs.get ⟨i, hi⟩).seq =
            base (msgs.get ⟨i, hi⟩).member +
              acceptedBefore msgs (fsLoop acceptable msgs u h db).1 (msgs.get ⟨i, hi⟩).member i +
              1 →
          ((fsLoop acceptable msgs u h db).1.get? i = some FSOutcome.accept ↔
            findRow db (msgs.get ⟨i, hi⟩).member (msgs.get ⟨i, hi⟩).global_time = none)) := by
  intro msgs
  induction msgs with
  | nil =>
    intro u h db base hbase i hi
    exact absurd hi (by simp)
  | cons m0 rest ih =>
    intro u h db base hbase i hi hceil hu hj
    have hbase0 := hbase m0 (List.mem_cons_self m0 rest)
    have hlk : lookupD h m0.member = base m0.member :=
      lookupD_of_find? h m0.member (base m0.member) hbase0
    by_cases hc1 : acceptable < m0.global_time
    · -- head dropped by the global-time ceiling
      have hstep : fsLoop acceptable (m0 :: rest) u h db =
          (FSOutcome.dropCeiling :: (fsLoop acceptable rest u h db).1,
            (fsLoop acceptable rest u h db).2) := by
        simp only [fsLoop]
        rw [if_pos hc1]
      cases i with
      | zero => exact absurd (show m0.global_time ≤ acceptable from hceil) (by omega)
      | succ n =>
        have hn : n < rest.length := by simpa using hi
        have htail := ih u h db base (fun m hm => hbase m (List.mem_cons_of_mem m0 hm))
          n hn hceil hu (fun j hjlt => hj (j + 1) (by omega))
        rw [hstep]
        simpa only [List.get?_cons_succ,
          acceptedBefore_cons_succ, if_neg (by simp : ¬(m0.member =
            ((m0 :: rest).get ⟨n + 1, hi⟩).member ∧ FSOutcome.dropCeiling = FSOutcome.accept)),
          Nat.zero_add] using htail
    · rw [Nat.not_lt] at hc1
      by_cases hc2 : (m0.member, m0.global_time) ∈ u
      · -- head dropped as an already-seen batch key
        have hstep : fsLoop acceptable (m0 :: rest) u h db =
            (FSOutcome.dropUniqueKey :: (fsLoop acceptable rest u h db).1,
              (fsLoop acceptable rest u h db).2) := by
          simp only [fsLoop]
          rw [if_neg (by omega), if_pos hc2]
        cases i with
        | zero => exact absurd hc2 hu
        | succ n =>
          have hn : n < rest.length := by simpa using hi
          have htail := ih u h db base (fun m hm => hbase m (List.mem_cons_of_mem m0 hm))
            n hn hceil hu (fun j hjlt => hj (j + 1) (by omega))
          rw [hstep]
          simpa only [List.get?_cons_succ,
            acceptedBefore_cons_succ, if_neg (by simp : ¬(m0.member =
              ((m0 :: rest).get ⟨n + 1, hi⟩).member ∧
                FSOutcome.dropUniqueKey = FSOutcome.accept)),
            Nat.zero_add] using htail
      · -- the head key is fresh; it is added to `unique`
        by_cases hc3 : m0.seq ≤ lookupD h m0.member
        · -- head dropped as a sequence-number duplicate
          have hstep : fsLoop acceptable (m0 :: rest) u h db =
              (FSOutcome.dropSeqDup ::
                  (fsLoop acceptable rest ((m0.member, m0.global_time) :: u) h db).1,
                (fsLoop acceptable rest ((m0.member, m0.global_time) :: u) h db).2) := by
            simp only [fsLoop]
            rw [if_neg (by omega), if_neg hc2, if_pos hc3]
          cases i with
          | zero =>
            rw [hlk] at hc3
            have hget0 : (m0 :: rest).get ⟨0, hi⟩ = m0 := rfl
            simp only [hget0, acceptedBefore_zero, Nat.add_zero]
            exact ⟨fun _ => by rw [hstep]; rfl, fun hx => absurd hx (by omega),
              fun hx => absurd hx (by omega)⟩
          | succ n =>
            have hn : n < rest.length := by simpa using hi
            have hu' : ((rest.get ⟨n, hn⟩).member, (rest.get ⟨n, hn⟩).global_time) ∉
                ((m0.member, m0.global_time) :: u) := by
              intro hmem
              rcases List.mem_cons.mp hmem with heq | hmem'
              · exact hj 0 (by omega) ⟨(congrArg Prod.fst heq).symm, (congrArg Prod.snd heq).symm⟩
              · exact hu hmem'
            have htail := ih ((m0.member, m0.global_time) :: u) h db base
              (fun m hm => hbase m (List.mem_cons_of_mem m0 hm))
              n hn hceil hu' (fun j hjlt => hj (j + 1) (by omega))
            rw [hstep]
            simpa only [List.get?_cons_succ,
              acceptedBefore_cons_succ, if_neg (by simp : ¬(m0.member =
                ((m0 :: rest).get ⟨n + 1, hi⟩).member ∧
                  FSOutcome.dropSeqDup = FSOutcome.accept)),
              Nat.zero_add] using htail
        · by_cases hc4 : lookupD h m0.member + 1 ≠ m0.seq
          · -- head delayed by sequence number
            have hstep : fsLoop acceptable (m0 :: rest) u h db =
                (FSOutcome.delaySeq (lookupD h m0.member + 1) (m0.seq - 1) ::
                    (fsLoop acceptable rest ((m0.member, m0.global_time) :: u) h db).1,
                  (fsLoop acceptable rest ((m0.member, m0.global_time) :: u) h db).2) := by
              simp only [fsLoop]
              rw [if_neg (by omega), if_neg hc2, if_neg hc3, if_pos hc4]
            cases i with
            | zero =>
              rw [hlk] at hc3 hc4
              rw [Nat.not_le] at hc3
              have hget0 : (m0 :: rest).get ⟨0, hi⟩ = m0 := rfl
              simp only [hget0, acceptedBefore_zero, Nat.add_zero]
              refine ⟨fun hx => absurd hx (by omega), fun _ => ?_,
                fun hx => absurd hx (by omega)⟩
              rw [hstep, hlk]
              rfl
            | succ n =>
              have hn : n < rest.length := by simpa using hi
              have hu' : ((rest.get ⟨n, hn⟩).member, (rest.get ⟨n, hn⟩).global_time) ∉
                  ((m0.member, m0.global_time) :: u) := by
                intro hmem
                rcases List.mem_cons.mp hmem with heq | hmem'
                · exact hj 0 (by omega) ⟨(congrArg Prod.fst heq).symm, (congrArg Prod.snd heq).symm⟩
                · exact hu hmem'
              have htail := ih ((m0.member, m0.global_time) :: u) h db base
                (fun m hm => hbase m (List.mem_cons_of_mem m0 hm))
                n hn hceil hu' (fun j hjlt => hj (j + 1) (by omega))
              rw [hstep]
              simpa only [List.get?_cons_succ,
                acceptedBefore_cons_succ, if_neg (by simp : ¬(m0.member =
                  ((m0 :: rest).get ⟨n + 1, hi⟩).member ∧
                    FSOutcome.delaySeq (lookupD h m0.member + 1) (m0.seq - 1) =
                      FSOutcome.accept)),
                Nat.zero_add] using htail
          · -- head has exactly the next sequence number: database duplicate probe
            by_cases hc5 : (is_duplicate_sync_message db (fsMsgToMsg m0)).isDup = true
            · -- dropped as database duplicate
              have hstep : fsLoop acceptable (m0 :: rest) u h db =
                  (FSOutcome.dropDupDb ::
                      (fsLoop acceptable rest ((m0.member, m0.global_time) :: u) h
                        (is_duplicate_sync_message db (fsMsgToMsg m0)).db).1,
                    (fsLoop acceptable rest ((m0.member, m0.global_time) :: u) h
                      (is_duplicate_sync_message db (fsMsgToMsg m0)).db).2) := by
                simp only [fsLoop]
                rw [if_neg (by omega), if_neg hc2, if_neg hc3, if_neg hc4, if_pos hc5]
              cases i with
              | zero =>
                rw [hlk] at hc3 hc4
                rw [Nat.not_le] at hc3
                have hget0 : (m0 :: rest).get ⟨0, hi⟩ = m0 := rfl
                simp only [hget0, acceptedBefore_zero, Nat.add_zero]
                refine ⟨fun hx => absurd hx (by omega), fun hx => absurd hx (by omega),
                  fun _ => ?_⟩
                rw [hstep]
                constructor
                · intro hacc
                  exact absurd hacc (by simp)
                · intro hnone
                  rw [isDup_eq_findRow_isSome] at hc5
                  rw [show findRow db (fsMsgToMsg m0).member (fsMsgToMsg m0).global_time =
                    findRow db m0.member m0.global_time from rfl, hnone] at hc5
                  exact absurd hc5 (by simp)
              | succ n =>
                have hn : n < rest.length := by simpa using hi
                have hu' : ((rest.get ⟨n, hn⟩).member, (rest.get ⟨n, hn⟩).global_time) ∉
                    ((m0.member, m0.global_time) :: u) := by
                  intro hmem
                  rcases List.mem_cons.mp hmem with heq | hmem'
                  · exact hj 0 (by omega) ⟨(congrArg Prod.fst heq).symm, (congrArg Prod.snd heq).symm⟩
                  · exact hu hmem'
                have htail := ih ((m0.member, m0.global_time) :: u) h
                  (is_duplicate_sync_message db (fsMsgToMsg m0)).db base
                  (fun m hm => hbase m (List.mem_cons_of_mem m0 hm))
                  n hn hceil hu' (fun j hjlt => hj (j + 1) (by omega))
                rw [hstep]
                have hcongr := option_none_congr
                  (isDup_db_findRow_isSome db (fsMsgToMsg m0)
                    ((m0 :: rest).get ⟨n + 1, hi⟩).member
                    ((m0 :: rest).get ⟨n + 1, hi⟩).global_time)
                refine ⟨?_, ?_, ?_⟩
                · intro hx
                  refine htail.1 ?_
                  rw [acceptedBefore_cons_succ, if_neg (by simp), Nat.zero_add] at hx
                  exact hx
                · intro hx
                  rw [acceptedBefore_cons_succ, if_neg (by simp), Nat.zero_add] at hx ⊢
                  exact htail.2.1 hx
                · intro hx
                  rw [acceptedBefore_cons_succ, if_neg (by simp), Nat.zero_add] at hx
                  rw [← hcongr]
                  exact htail.2.2 hx
            · -- accepted; highest[member] advances
              have hstep : fsLoop acceptable (m0 :: rest) u h db =
                  (FSOutcome.accept ::
                      (fsLoop acceptable rest ((m0.member, m0.global_time) :: u)
                        (setKey h m0.member (lookupD h m0.member + 1))
                        (is_duplicate_sync_message db (fsMsgToMsg m0)).db).1,
                    (fsLoop acceptable rest ((m0.member, m0.global_time) :: u)
                      (setKey h m0.member (lookupD h m0.member + 1))
                      (is_duplicate_sync_message db (fsMsgToMsg m0)).db).2) := by
                simp only [fsLoop]
                rw [if_neg (by omega), if_neg hc2, if_neg hc3, if_neg hc4,
                  if_neg (by simpa using hc5)]
              cases i with
              | zero =>
                rw [hlk] at hc3 hc4
                rw [Nat.not_le] at hc3
                have hget0 : (m0 :: rest).get ⟨0, hi⟩ = m0 := rfl
                simp only [hget0, acceptedBefore_zero, Nat.add_zero]
                refine ⟨fun hx => absurd hx (by omega), fun hx => absurd hx (by omega),
                  fun _ => ?_⟩
                rw [hstep]
                constructor
                · intro _
                  rw [isDup_eq_findRow_isSome] at hc5
                  rcases hfr : findRow db m0.member m0.global_time with _ | row
                  · rfl
                  · rw [show findRow db (fsMsgToMsg m0).member (fsMsgToMsg m0).global_time =
                      findRow db m0.member m0.global_time from rfl, hfr] at hc5
                    exact (hc5 (by simp)).elim
                · intro _
                  rfl
              | succ n =>
                have hn : n < rest.length := by simpa using hi
                have hu' : ((rest.get ⟨n, hn⟩).member, (rest.get ⟨n, hn⟩).global_time) ∉
                    ((m0.member, m0.global_time) :: u) := by
                  intro hmem
                  rcases List.mem_cons.mp hmem with heq | hmem'
                  · exact hj 0 (by omega) ⟨(congrArg Prod.fst heq).symm, (congrArg Prod.snd heq).symm⟩
                  · exact hu hmem'
                have hbase' : ∀ m ∈ rest,
                    (setKey h m0.member (lookupD h m0.member + 1)).find?
                        (fun p => p.1 = m.member) =
                      some (m.member,
                        (fun mem => if mem = m0.member then base m0.member + 1 else base mem)
                          m.member) := by
                  intro m hm
                  by_cases hmm : m.member = m0.member
                  · have hbeq : (fun mem =>
                        if mem = m0.member then base m0.member + 1 else base mem) m.member =
                        base m0.member + 1 := by
                      rw [hmm]
                      simp
                    rw [hbeq, hmm, hlk]
                    exact find?_setKey_self h m0.member (base m0.member + 1) _ hbase0
                  · have hbeq : (fun mem =>
                        if mem = m0.member then base m0.member + 1 else base mem) m.member =
                        base m.member := by
                      simp [hmm]
                    rw [find?_setKey_ne h m0.member _ m.member hmm, hbeq]
                    exact hbase m (List.mem_cons_of_mem m0 hm)
                have htail := ih ((m0.member, m0.global_time) :: u)
                  (setKey h m0.member (lookupD h m0.member + 1))
                  (is_duplicate_sync_message db (fsMsgToMsg m0)).db
                  (fun mem => if mem = m0.member then base m0.member + 1 else base mem)
                  hbase' n hn hceil hu' (fun j hjlt => hj (j + 1) (by omega))
                rw [hstep]
                have hcongr := option_none_congr
                  (isDup_db_findRow_isSome db (fsMsgToMsg m0)
                    ((m0 :: rest).get ⟨n + 1, hi⟩).member
                    ((m0 :: rest).get ⟨n + 1, hi⟩).global_time)
                have hHeq : base ((m0 :: rest).get ⟨n + 1, hi⟩).member +
                    acceptedBefore (m0 :: rest)
                      (FSOutcome.accept ::
                        (fsLoop acceptable rest ((m0.member, m0.global_time) :: u)
                          (setKey h m0.member (lookupD h m0.member + 1))
                          (is_duplicate_sync_message db (fsMsgToMsg m0)).db).1)
                      ((m0 :: rest).get ⟨n + 1, hi⟩).member (n + 1) =
                    (fun mem => if mem = m0.member then base m0.member + 1 else base mem)
                        ((m0 :: rest).get ⟨n + 1, hi⟩).member +
                      acceptedBefore rest
                        (fsLoop acceptable rest ((m0.member, m0.global_time) :: u)
                          (setKey h m0.member (lookupD h m0.member + 1))
                          (is_duplicate_sync_message db (fsMsgToMsg m0)).db).1
                        ((m0 :: rest).get ⟨n + 1, hi⟩).member n := by
                  rw [acceptedBefore_cons_succ]
                  by_cases hmm : m0.member = ((m0 :: rest).get ⟨n + 1, hi⟩).member
                  · have hbeq : (fun mem =>
                        if mem = m0.member then base m0.member + 1 else base mem)
                          ((m0 :: rest).get ⟨n + 1, hi⟩).member = base m0.member + 1 := by
                      rw [← hmm]
                      simp
                    rw [if_pos ⟨hmm, rfl⟩, hbeq, ← hmm]
                    omega
                  · have hne : ((m0 :: rest).get ⟨n + 1, hi⟩).member ≠ m0.member :=
                      fun hx => hmm hx.symm
                    have hbeq : (fun mem =>
                        if mem = m0.member then base m0.member + 1 else base mem)
                          ((m0 :: rest).get ⟨n + 1, hi⟩).member =
                        base ((m0 :: rest).get ⟨n + 1, hi⟩).member := by
                      show (if ((m0 :: rest).get ⟨n + 1, hi⟩).member = m0.member then
                          base m0.member + 1
                        else base ((m0 :: rest).get ⟨n + 1, hi⟩).member) =
                        base ((m0 :: rest).get ⟨n + 1, hi⟩).member
                      rw [if_neg hne]
                    rw [if_neg (fun hx => hmm hx.1), hbeq]
                    omega
                refine ⟨?_, ?_, ?_⟩
                · intro hx
                  rw [hHeq] at hx
                  exact htail.1 hx
                · intro hx
                  rw [hHeq] at hx ⊢
                  exact htail.2.1 hx
                · intro hx
                  rw [hHeq] at hx
                  rw [← hcongr]
                  exact htail.2.2 hx

/-- Claim C2: in a full-sync batch with sequence numbers enabled, letting `H`
be the stored-message count of the sender plus the acceptances for that
member earlier in the (sorted) batch: a message within the ceiling and with a
fresh (member, gt) batch key is dropped as duplicate when its sequence number
is ≤ H, delayed requesting exactly [H+1, seq-1] when it is > H+1, and when it
is exactly H+1 it is accepted iff no (member, gt) row is stored (acceptance
advances H for the member's later batch messages, as the H in this statement
counts prior acceptances). -/
theorem c2_full_sync_sequence_numbers (acceptable meta : Nat) (db : DB) (msgs : List FSMsg)
    (i : Nat) (hi : i < (List.insertionSort fsMsgLe msgs).length)
    (hceil : ((List.insertionSort fsMsgLe msgs).get ⟨i, hi⟩).global_time ≤ acceptable)
    (hfresh : ∀ j (hj : j < i),
      ¬(((List.insertionSort fsMsgLe msgs).get ⟨j, Nat.lt_trans hj hi⟩).member =
          ((List.insertionSort fsMsgLe msgs).get ⟨i, hi⟩).member ∧
        ((List.insertionSort fsMsgLe msgs).get ⟨j, Nat.lt_trans hj hi⟩).global_time =
          ((List.insertionSort fsMsgLe msgs).get ⟨i, hi⟩).global_time)) :
    (((List.insertionSort fsMsgLe msgs).get ⟨i, hi⟩).seq ≤
        dbCount db ((List.insertionSort fsMsgLe msgs).get ⟨i, hi⟩).member meta +
          acceptedBefore (List.insertionSort fsMsgLe msgs)
            (check_full_sync_distribution_batch_seq acceptable meta db msgs).1
            ((List.insertionSort fsMsgLe msgs).get ⟨i, hi⟩).member i →
      (check_full_sync_distribution_batch_seq acceptable meta db msgs).1.get? i =
        some FSOutcome.dropSeqDup) ∧
    (dbCount db ((List.insertionSort fsMsgLe msgs).get ⟨i, hi⟩).member meta +
          acceptedBefore (List.insertionSort fsMsgLe msgs)
            (check_full_sync_distribution_batch_seq acceptable meta db msgs).1
            ((List.insertionSort fsMsgLe msgs).get ⟨i, hi⟩).member i + 1 <
        ((List.insertionSort fsMsgLe msgs).get ⟨i, hi⟩).seq →
      (check_full_sync_distribution_batch_seq acceptable meta db msgs).1.get? i =
        some (FSOutcome.delaySeq
          (dbCount db ((List.insertionSort fsMsgLe msgs).get ⟨i, hi⟩).member meta +
            acceptedBefore (List.insertionSort fsMsgLe msgs)
              (check_full_sync_distribution_batch_seq acceptable meta db msgs).1
              ((List.insertionSort fsMsgLe msgs).get ⟨i, hi⟩).member i + 1)
          (((List.insertionSort fsMsgLe msgs).get ⟨i, hi⟩).seq - 1))) ∧
    (((List.insertionSort fsMsgLe msgs).get ⟨i, hi⟩).seq =
        dbCount db ((List.insertionSort fsMsgLe msgs).get ⟨i, hi⟩).member meta +
          acceptedBefore (List.insertionSort fsMsgLe msgs)
            (check_full_sync_distribution_batch_seq acceptable meta db msgs).1
            ((List.insertionSort fsMsgLe msgs).get ⟨i, hi⟩).member i + 1 →
      ((check_full_sync_distribution_batch_seq acceptable meta db msgs).1.get? i =
          some FSOutcome.accept ↔
        findRow db ((List.insertionSort fsMsgLe msgs).get ⟨i, hi⟩).member
          ((List.insertionSort fsMsgLe msgs).get ⟨i, hi⟩).global_time = none)) := by
  have hmain := fsLoop_spec acceptable (List.insertionSort fsMsgLe msgs) []
    (fsInitHighest db meta (List.insertionSort fsMsgLe msgs) []) db
    (fun mem => dbCount db mem meta)
    (fun m hm => fsInitHighest_find? db meta _ m hm)
    i hi hceil (by simp) hfresh
  simpa only [check_full_sync_distribution_batch_seq] using hmain

/-- Claim C2 witness: one stored message for member 1 (H = 1); the incoming
message with sequence number 2 = H + 1 and a fresh global time is accepted. -/
theorem c2_full_sync_sequence_numbers_witness :
    (check_full_sync_distribution_batch_seq 10 7 [⟨1, 1, 3, 7, [5], 0, none⟩]
        [⟨1, 4, 2, [6], 1⟩]).1.get? 0 = some FSOutcome.accept :=
  ((c2_full_sync_sequence_numbers 10 7 [⟨1, 1, 3, 7, [5], 0, none⟩] [⟨1, 4, 2, [6], 1⟩]
      0 (by decide) (by decide) (fun j hj => absurd hj (by omega))).2.2
    (by decide)).mpr (by decide)

theorem bytesLt_trans : ∀ {a b c : Packet},
    bytesLt a b = true → bytesLt b c = true → bytesLt a c = true := by
  intro a
  induction a with
  | nil =>
    intro b c hab hbc
    cases b with
    | nil => exact absurd hab (by simp [bytesLt])
    | cons y ys =>
      cases c with
      | nil => exact absurd hbc (by simp [bytesLt])
      | cons z zs => simp [bytesLt]
  | cons x xs ih =>
    intro b c hab hbc
    cases b with
    | nil => exact absurd hab (by simp [bytesLt])
    | cons y ys =>
      cases c with
      | nil => exact absurd hbc (by simp [bytesLt])
      | cons z zs =>
        unfold bytesLt at hab hbc ⊢
        by_cases hxy : x < y
        · by_cases hyz : y < z
          · rw [if_pos (by omega)]
          · rw [if_neg hyz] at hbc
            by_cases hzy : z < y
            · exact absurd hbc (by rw [if_pos hzy]; simp)
            · have : y = z := by omega
              rw [if_pos (by omega)]
        · rw [if_neg hxy] at hab
          by_cases hyx : y < x
          · exact absurd hab (by rw [if_pos hyx]; simp)
          · rw [if_neg hyx] at hab
            have hxeqy : x = y := by omega
            by_cases hyz : y < z
            · rw [if_pos (by omega)]
            · rw [if_neg hyz] at hbc
              by_cases hzy : z < y
              · exact absurd hbc (by rw [if_pos hzy]; simp)
              · rw [if_neg hzy] at hbc
                rw [if_neg (by omega), if_neg (by omega)]
                exact ih hab hbc

theorem bytesLt_trichotomy : ∀ (a b : Packet),
    bytesLt a b = true ∨ bytesLt b a = true ∨ a = b := by
  intro a
  induction a with
  | nil =>
    intro b
    cases b with
    | nil => right; right; rfl
    | cons y ys => left; simp [bytesLt]
  | cons x xs ih =>
    intro b
    cases b with
    | nil => right; left; simp [bytesLt]
    | cons y ys =>
      by_cases hxy : x < y
      · left
        unfold bytesLt
        rw [if_pos hxy]
      · by_cases hyx : y < x
        · right; left
          unfold bytesLt
          rw [if_pos hyx]
        · have hxeqy : x = y := by omega
          rcases ih ys with h | h | h
          · left
            unfold bytesLt
            rw [if_neg hxy, if_neg hyx]
            exact h
          · right; left
            unfold bytesLt
            rw [if_neg hyx, if_neg hxy]
            exact h
          · right; right
            rw [hxeqy, h]

instance : IsTrans SyncRow rowLe :=
  ⟨by
    intro a b c hab hbc
    unfold rowLe at hab hbc ⊢
    rcases hab with h1 | ⟨h1, h1p⟩
    · rcases hbc with h2 | ⟨h2, _⟩
      · left; omega
      · left; omega
    · rcases hbc with h2 | ⟨h2, h2p⟩
      · left; omega
      · right
        refine ⟨by omega, ?_⟩
        rcases h1p with h1p | h1p
        · rcases h2p with h2p | h2p
          · exact Or.inl (bytesLt_trans h1p h2p)
          · rw [← h2p]
            exact Or.inl h1p
        · rw [h1p]
          exact h2p⟩

instance : IsTotal SyncRow rowLe :=
  ⟨by
    intro a b
    unfold rowLe
    rcases Nat.lt_trichotomy a.global_time b.global_time with h | h | h
    · left; left; exact h
    · rcases bytesLt_trichotomy a.packet b.packet with hp | hp | hp
      · left; right; exact ⟨h, Or.inl hp⟩
      · right; right; exact ⟨h.symm, Or.inl hp⟩
      · left; right; exact ⟨h, Or.inr hp⟩
    · right; left; exact h⟩

/-- The guarded `take` in `obsoleteIds` is unconditional. -/
theorem obsoleteIds_eq (h : Nat) (g : DB) :
    obsoleteIds h g =
      ((List.insertionSort rowLe g).take (g.length - h)).map (fun r => r.id) := by
  unfold obsoleteIds
  by_cases hc : h < g.length
  · rw [if_pos hc]
  · rw [if_neg hc]
    have h0 : g.length - h = 0 := by omega
    rw [h0]
    simp

/-- Core pruning argument for one group: when deletion by id agrees with the
group's own obsolete set, the surviving group has `min n history` rows and
every deleted row is strictly older than every surviving one. -/
theorem prune_group_spec (db1 : DB) (p : SyncRow → Bool) (h : Nat) (removed : List Nat)
    (hids : (db1.map (fun r => r.id)).Nodup)
    (hgts : ((db1.filter p).map (fun r => r.global_time)).Nodup)
    (hiff : ∀ r ∈ db1.filter p, (r.id ∈ removed ↔ r.id ∈ obsoleteIds h (db1.filter p))) :
    ((db1.filter (fun r => r.id ∉ removed)).filter p).length =
      min (db1.filter p).length h ∧
    (∀ r ∈ db1.filter p, r ∉ db1.filter (fun r => r.id ∉ removed) →
      ∀ q ∈ db1.filter p, q ∈ db1.filter (fun r => r.id ∉ removed) →
        r.global_time < q.global_time) := by
  set g := db1.filter p with hg
  set k := g.length - h with hk
  set srt := List.insertionSort rowLe g with hsrtdef
  have hperm : srt.Perm g := List.perm_insertionSort rowLe g
  have hsub : g.Sublist db1 := List.filter_sublist db1
  have hidg : (g.map (fun r => r.id)).Nodup :=
    List.Nodup.sublist (List.Sublist.map _ hsub) hids
  have hid_srt : (srt.map (fun r => r.id)).Nodup := ((hperm.map _).nodup_iff).mpr hidg
  have hgt_srt : (srt.map (fun r => r.global_time)).Nodup :=
    ((hperm.map _).nodup_iff).mpr hgts
  have hsplit : srt.take k ++ srt.drop k = srt := List.take_append_drop k srt
  have htakemem : ∀ r ∈ srt.take k, r.id ∈ obsoleteIds h g := by
    intro r hr
    rw [obsoleteIds_eq]
    exact List.mem_map_of_mem _ hr
  have hsrt_nodup : srt.Nodup := List.Nodup.of_map _ hid_srt
  have hdisj : ∀ r, r ∈ srt.take k → r ∈ srt.drop k → False := by
    intro r h1 h2
    have hnd : (srt.take k ++ srt.drop k).Nodup := by
      rw [hsplit]
      exact hsrt_nodup
    exact (List.nodup_append.mp hnd).2.2 h1 h2
  have hdropmem : ∀ r ∈ srt.drop k, r.id ∉ obsoleteIds h g := by
    intro r hr hmem
    rw [obsoleteIds_eq] at hmem
    rcases List.mem_map.mp hmem with ⟨q, hq, hqid⟩
    have hqin : q ∈ srt := List.take_subset _ _ hq
    have hrin : r ∈ srt := List.drop_subset _ _ hr
    have heq : q = r := List.inj_on_of_nodup_map hid_srt hqin hrin hqid
    rw [heq] at hq
    exact hdisj r hq hr
  have htake_rem : ∀ r ∈ srt.take k, r.id ∈ removed := fun r hr =>
    (hiff r (hperm.subset (List.take_subset _ _ hr))).mpr (htakemem r hr)
  have hdrop_rem : ∀ r ∈ srt.drop k, r.id ∉ removed := fun r hr hmem =>
    hdropmem r hr ((hiff r (hperm.subset (List.drop_subset _ _ hr))).mp hmem)
  have hkeep : (db1.filter (fun r => r.id ∉ removed)).filter p =
      db1.filter (fun r => p r && (r.id ∉ removed : Bool)) := List.filter_filter _ _
  have hkeep2 : g.filter (fun r => r.id ∉ removed) =
      db1.filter (fun r => (r.id ∉ removed : Bool) && p r) := List.filter_filter _ _
  have hkeep3 : (db1.filter (fun r => r.id ∉ removed)).filter p =
      g.filter (fun r => r.id ∉ removed) := by
    rw [hkeep, hkeep2]
    exact List.filter_congr (fun x _ => by rw [Bool.and_comm])
  have hfil_srt : srt.filter (fun r => r.id ∉ removed) = srt.drop k := by
    conv_lhs => rw [← hsplit]
    rw [List.filter_append,
      List.filter_eq_nil_iff.mpr (fun r hr => by simpa using htake_rem r hr),
      List.filter_eq_self.mpr (fun r hr => by simpa using hdrop_rem r hr)]
    simp
  have hpermkeep : (g.filter (fun r => r.id ∉ removed)).Perm (srt.drop k) := by
    rw [← hfil_srt]
    exact (hperm.filter _).symm
  constructor
  · rw [hkeep3, hpermkeep.length_eq, List.length_drop]
    have hlen := hperm.length_eq
    omega
  · intro r hrg hrnot q hqg hqkept
    have hrid : r.id ∈ removed := by
      by_contra hno
      exact hrnot (List.mem_filter.mpr ⟨(List.mem_filter.mp hrg).1, by simpa using hno⟩)
    have hrsrt : r ∈ srt := hperm.mem_iff.mpr hrg
    have hrtake : r ∈ srt.take k := by
      rcases List.mem_append.mp (by rw [hsplit]; exact hrsrt :
          r ∈ srt.take k ++ srt.drop k) with h1 | h1
      · exact h1
      · exact absurd hrid (hdrop_rem r h1)
    have hqid : q.id ∉ removed := by
      have hq2 := (List.mem_filter.mp hqkept).2
      simpa using hq2
    have hqsrt : q ∈ srt := hperm.mem_iff.mpr hqg
    have hqdrop : q ∈ srt.drop k := by
      rcases List.mem_append.mp (by rw [hsplit]; exact hqsrt :
          q ∈ srt.take k ++ srt.drop k) with h1 | h1
      · exact absurd (htake_rem q h1) hqid
      · exact h1
    have hsorted : List.Pairwise rowLe srt := List.sorted_insertionSort rowLe g
    have hpw : List.Pairwise rowLe (srt.take k ++ srt.drop k) := by
      rw [hsplit]
      exact hsorted
    have hrq : rowLe r q := (List.pairwise_append.mp hpw).2.2 r hrtake q hqdrop
    have hgtne : r.global_time ≠ q.global_time := by
      intro heq
      have hreq : r = q := List.inj_on_of_nodup_map hgt_srt hrsrt hqsrt heq
      rw [hreq] at hrtake
      exact hdisj q hrtake hqdrop
    unfold rowLe at hrq
    rcases hrq with h1 | ⟨h1, _⟩
    · exact h1
    · exact absurd h1 hgtne

/-- Under single-member authentication, a group row is deleted exactly when
its id is obsolete within its own group (deletions from other members' groups
cannot hit it thanks to unique row ids). -/
theorem storeRemoved_iff_member (meta : MetaInfo) (db1 : DB) (msgs : List StoreMsg)
    (hd : meta.isDouble = false)
    (hids : (db1.map (fun r => r.id)).Nodup)
    (mem : Nat) (hmem : mem ∈ msgs.map (fun m => m.member)) :
    ∀ r ∈ groupRowsMember db1 meta.id mem,
      (r.id ∈ storeRemovedIds meta db1 msgs ↔
        r.id ∈ obsoleteIds meta.history_size (groupRowsMember db1 meta.id mem)) := by
  intro r hr
  unfold storeRemovedIds
  rw [if_neg (by simp [hd])]
  constructor
  · intro hin
    rcases List.mem_flatMap.mp hin with ⟨k, hk, hobs⟩
    rw [obsoleteIds_eq] at hobs
    rcases List.mem_map.mp hobs with ⟨q, hq, hqid⟩
    have hqg : q ∈ groupRowsMember db1 meta.id k :=
      (List.perm_insertionSort rowLe _).subset (List.take_subset _ _ hq)
    have hqdb : q ∈ db1 := (List.mem_filter.mp hqg).1
    have hrdb : r ∈ db1 := (List.mem_filter.mp hr).1
    have hqr : q = r := List.inj_on_of_nodup_map hids hqdb hrdb hqid
    have hqpred := (List.mem_filter.mp hqg).2
    rw [hqr] at hqpred
    have hrpred := (List.mem_filter.mp hr).2
    simp only [decide_eq_true_eq] at hqpred hrpred
    have hkm : k = mem := by rw [← hqpred.2, hrpred.2]
    rw [← hkm, obsoleteIds_eq, ← hqid]
    exact List.mem_map_of_mem _ hq
  · intro hobs
    exact List.mem_flatMap.mpr ⟨mem, List.mem_dedup.mpr hmem, hobs⟩

/-- Under single-member authentication, only rows of the stored meta and of a
batch member are ever deleted. -/
theorem storeRemoved_member_frame (meta : MetaInfo) (db1 : DB) (msgs : List StoreMsg)
    (hd : meta.isDouble = false)
    (hids : (db1.map (fun r => r.id)).Nodup) :
    ∀ r ∈ db1, r.id ∈ storeRemovedIds meta db1 msgs →
      r.meta = meta.id ∧ r.member ∈ msgs.map (fun m => m.member) := by
  intro r hrdb hin
  unfold storeRemovedIds at hin
  rw [if_neg (by simp [hd])] at hin
  rcases List.mem_flatMap.mp hin with ⟨k, hk, hobs⟩
  rw [obsoleteIds_eq] at hobs
  rcases List.mem_map.mp hobs with ⟨q, hq, hqid⟩
  have hqg : q ∈ groupRowsMember db1 meta.id k :=
    (List.perm_insertionSort rowLe _).subset (List.take_subset _ _ hq)
  have hqdb : q ∈ db1 := (List.mem_filter.mp hqg).1
  have hqr : q = r := List.inj_on_of_nodup_map hids hqdb hrdb hqid
  have hqpred := (List.mem_filter.mp hqg).2
  rw [hqr] at hqpred
  simp only [decide_eq_true_eq] at hqpred
  refine ⟨hqpred.1, ?_⟩
  rw [hqpred.2]
  exact List.mem_dedup.mp hk

/-- Double-member analogue of `storeRemoved_iff_member`, with groups keyed by
the ordered signer pair. -/
theorem storeRemoved_iff_pair (meta : MetaInfo) (db1 : DB) (msgs : List StoreMsg)
    (hd : meta.isDouble = true)
    (hids : (db1.map (fun r => r.id)).Nodup)
    (pr : Nat × Nat) (hpr : pr ∈ msgs.map (fun m => orderPair m.members)) :
    ∀ r ∈ groupRowsPair db1 meta.id pr,
      (r.id ∈ storeRemovedIds meta db1 msgs ↔
        r.id ∈ obsoleteIds meta.history_size (groupRowsPair db1 meta.id pr)) := by
  intro r hr
  unfold storeRemovedIds
  rw [if_pos hd]
  constructor
  · intro hin
    rcases List.mem_flatMap.mp hin with ⟨k, hk, hobs⟩
    rw [obsoleteIds_eq] at hobs
    rcases List.mem_map.mp hobs with ⟨q, hq, hqid⟩
    have hqg : q ∈ groupRowsPair db1 meta.id k :=
      (List.perm_insertionSort rowLe _).subset (List.take_subset _ _ hq)
    have hqdb : q ∈ db1 := (List.mem_filter.mp hqg).1
    have hrdb : r ∈ db1 := (List.mem_filter.mp hr).1
    have hqr : q = r := List.inj_on_of_nodup_map hids hqdb hrdb hqid
    have hqpred := (List.mem_filter.mp hqg).2
    rw [hqr] at hqpred
    have hrpred := (List.mem_filter.mp hr).2
    simp only [decide_eq_true_eq] at hqpred hrpred
    have hkm : k = pr := by
      have h1 := hqpred.2
      rw [hrpred.2] at h1
      exact (Option.some.injEq _ _ ▸ h1 : some pr = some k) |> Option.some.inj |>.symm
    rw [← hkm, obsoleteIds_eq, ← hqid]
    exact List.mem_map_of_mem _ hq
  · intro hobs
    exact List.mem_flatMap.mpr ⟨pr, List.mem_dedup.mpr hpr, hobs⟩

/-- Double-member analogue of `storeRemoved_member_frame`. -/
theorem storeRemoved_pair_frame (meta : MetaInfo) (db1 : DB) (msgs : List StoreMsg)
    (hd : meta.isDouble = true)
    (hids : (db1.map (fun r => r.id)).Nodup) :
    ∀ r ∈ db1, r.id ∈ storeRemovedIds meta db1 msgs →
      r.meta = meta.id ∧
        ∃ pr ∈ msgs.map (fun m => orderPair m.members), r.pair = some pr := by
  intro r hrdb hin
  unfold storeRemovedIds at hin
  rw [if_pos hd] at hin
  rcases List.mem_flatMap.mp hin with ⟨k, hk, hobs⟩
  rw [obsoleteIds_eq] at hobs
  rcases List.mem_map.mp hobs with ⟨q, hq, hqid⟩
  have hqg : q ∈ groupRowsPair db1 meta.id k :=
    (List.perm_insertionSort rowLe _).subset (List.take_subset _ _ hq)
  have hqdb : q ∈ db1 := (List.mem_filter.mp hqg).1
  have hqr : q = r := List.inj_on_of_nodup_map hids hqdb hrdb hqid
  have hqpred := (List.mem_filter.mp hqg).2
  rw [hqr] at hqpred
  simp only [decide_eq_true_eq] at hqpred
  exact ⟨hqpred.1, k, List.mem_dedup.mp hk, hqpred.2⟩

/-- Claim C5: after `_store` processes a last-sync batch, each touched
(meta, member) group (single-member authentication) or (meta, unordered pair)
group (double-member authentication) retains `min n history_size` rows —
hence at most `history_size`; every pruned row belongs to the stored meta and
to a touched group; and within a touched group every pruned row has a
strictly lower global time than every surviving row. -/
theorem c5_store_last_sync_prune (meta : MetaInfo) (db : DB) (msgs : List StoreMsg)
    (hlast : meta.isLastSync = true)
    (hids : ((storeInsert meta db msgs).map (fun r => r.id)).Nodup)
    (hgts1 : meta.isDouble = false → ∀ mem ∈ msgs.map (fun m => m.member),
      ((groupRowsMember (storeInsert meta db msgs) meta.id mem).map
        (fun r => r.global_time)).Nodup)
    (hgts2 : meta.isDouble = true → ∀ pr ∈ msgs.map (fun m => orderPair m.members),
      ((groupRowsPair (storeInsert meta db msgs) meta.id pr).map
        (fun r => r.global_time)).Nodup) :
    (meta.isDouble = false →
      (∀ mem ∈ msgs.map (fun m => m.member),
        (groupRowsMember (store meta db msgs) meta.id mem).length =
          min (groupRowsMember (storeInsert meta db msgs) meta.id mem).length
            meta.history_size) ∧
      (∀ r ∈ storeInsert meta db msgs, r ∉ store meta db msgs →
        r.meta = meta.id ∧ r.member ∈ msgs.map (fun m => m.member)) ∧
      (∀ mem ∈ msgs.map (fun m => m.member),
        ∀ r ∈ groupRowsMember (storeInsert meta db msgs) meta.id mem,
          r ∉ store meta db msgs →
          ∀ q ∈ groupRowsMember (storeInsert meta db msgs) meta.id mem,
            q ∈ store meta db msgs → r.global_time < q.global_time)) ∧
    (meta.isDouble = true →
      (∀ pr ∈ msgs.map (fun m => orderPair m.members),
        (groupRowsPair (store meta db msgs) meta.id pr).length =
          min (groupRowsPair (storeInsert meta db msgs) meta.id pr).length
            meta.history_size) ∧
      (∀ r ∈ storeInsert meta db msgs, r ∉ store meta db msgs →
        r.meta = meta.id ∧
          ∃ pr ∈ msgs.map (fun m => orderPair m.members), r.pair = some pr) ∧
      (∀ pr ∈ msgs.map (fun m => orderPair m.members),
        ∀ r ∈ groupRowsPair (storeInsert meta db msgs) meta.id pr,
          r ∉ store meta db msgs →
          ∀ q ∈ groupRowsPair (storeInsert meta db msgs) meta.id pr,
            q ∈ store meta db msgs → r.global_time < q.global_time)) := by
  have hstore : store meta db msgs =
      (storeInsert meta db msgs).filter
        (fun r => r.id ∉ storeRemovedIds meta (storeInsert meta db msgs) msgs) := by
    simp only [store]
    rw [if_pos hlast]
  constructor
  · intro hd
    refine ⟨?_, ?_, ?_⟩
    · intro mem hmem
      have hp := prune_group_spec (storeInsert meta db msgs)
        (fun r => decide (r.meta = meta.id ∧ r.member = mem))
        meta.history_size (storeRemovedIds meta (storeInsert meta db msgs) msgs)
        hids (hgts1 hd mem hmem)
        (storeRemoved_iff_member meta (storeInsert meta db msgs) msgs hd hids mem hmem)
      rw [hstore]
      exact hp.1
    · intro r hrdb hrnot
      have hrid : r.id ∈ storeRemovedIds meta (storeInsert meta db msgs) msgs := by
        by_contra hno
        exact hrnot (by
          rw [hstore]
          exact List.mem_filter.mpr ⟨hrdb, by simpa using hno⟩)
      exact storeRemoved_member_frame meta (storeInsert meta db msgs) msgs hd hids r hrdb hrid
    · intro mem hmem r hr hrnot q hq hqin
      have hp := prune_group_spec (storeInsert meta db msgs)
        (fun r => decide (r.meta = meta.id ∧ r.member = mem))
        meta.history_size (storeRemovedIds meta (storeInsert meta db msgs) msgs)
        hids (hgts1 hd mem hmem)
        (storeRemoved_iff_member meta (storeInsert meta db msgs) msgs hd hids mem hmem)
      rw [hstore] at hrnot hqin
      exact hp.2 r hr hrnot q hq hqin
  · intro hd
    refine ⟨?_, ?_, ?_⟩
    · intro pr hpr
      have hp := prune_group_spec (storeInsert meta db msgs)
        (fun r => decide (r.meta = meta.id ∧ r.pair = some pr))
        meta.history_size (storeRemovedIds meta (storeInsert meta db msgs) msgs)
        hids (hgts2 hd pr hpr)
        (storeRemoved_iff_pair meta (storeInsert meta db msgs) msgs hd hids pr hpr)
      rw [hstore]
      exact hp.1
    · intro r hrdb hrnot
      have hrid : r.id ∈ storeRemovedIds meta (storeInsert meta db msgs) msgs := by
        by_contra hno
        exact hrnot (by
          rw [hstore]
          exact List.mem_filter.mpr ⟨hrdb, by simpa using hno⟩)
      exact storeRemoved_pair_frame meta (storeInsert meta db msgs) msgs hd hids r hrdb hrid
    · intro pr hpr r hr hrnot q hq hqin
      have hp := prune_group_spec (storeInsert meta db msgs)
        (fun r => decide (r.meta = meta.id ∧ r.pair = some pr))
        meta.history_size (storeRemovedIds meta (storeInsert meta db msgs) msgs)
        hids (hgts2 hd pr hpr)
        (storeRemoved_iff_pair meta (storeInsert meta db msgs) msgs hd hids pr hpr)
      rw [hstore] at hrnot hqin
      exact hp.2 r hr hrnot q hq hqin

/-- Claim C5 witness: history size 1, one stored row at global time 5; after
storing a new message at global time 7 the member's group is pruned back to a
single row. -/
theorem c5_store_last_sync_prune_witness :
    (groupRowsMember (store ⟨1, true, false, 1⟩ [⟨1, 1, 5, 1, [9], 0, none⟩]
        [⟨1, (0, 0), 7, [8]⟩]) 1 1).length =
      min (groupRowsMember (storeInsert ⟨1, true, false, 1⟩ [⟨1, 1, 5, 1, [9], 0, none⟩]
        [⟨1, (0, 0), 7, [8]⟩]) 1 1).length 1 :=
  ((c5_store_last_sync_prune ⟨1, true, false, 1⟩ [⟨1, 1, 5, 1, [9], 0, none⟩]
      [⟨1, (0, 0), 7, [8]⟩] rfl (by decide) (by decide) (by decide)).1 rfl).1 1 (by decide)

/-- Claim C10: a vote from a candidate on our own LAN (its WAN host or socket
host equals our WAN host), or with an invalid claimed address, leaves the
whole node state — votes, wan_address, lan_address, connection_type,
candidate tables — untouched; in particular the voter's earlier vote is not
retracted. -/
theorem c10_vote_guard_frame (s : NodeState) (address : Addr) (voter : Voter)
    (h : s.wan_address.1 = voter.wan_address.1 ∨ s.wan_address.1 = voter.sock_addr.1 ∨
      is_valid_address address = false) :
    wan_address_vote s address voter = s := by
  unfold wan_address_vote
  rcases h with h | h | h
  · rw [if_pos (Or.inl h)]
  · rw [if_pos (Or.inr h)]
  · by_cases hg : s.wan_address.1 = voter.wan_address.1 ∨ s.wan_address.1 = voter.sock_addr.1
    · rw [if_pos hg]
    · rw [if_neg hg, if_pos (by simp [h])]

/-- Looking up a key in a list purged of that key finds nothing. -/
theorem find?_filter_ne {β : Type} (l : List (String × β)) (k : String) :
    (l.filter (fun p => p.1 ≠ k)).find? (fun p => p.1 = k) = none := by
  rw [List.find?_eq_none]
  intro x hx
  have h := (List.mem_filter.mp hx).2
  simp at h
  simp [h]

/-- After `replace_register`, the scheduler id holds exactly the new task. -/
theorem taskLookup_replaceTask (tasks : List (String × TaskFn × ℚ)) (key : String)
    (fn : TaskFn) (d : ℚ) :
    taskLookup (replaceTask tasks key fn d) key = some (fn, d) := by
  unfold taskLookup replaceTask registerTask unregisterTask
  induction tasks with
  | nil => simp
  | cons t ts ih =>
    by_cases h : t.1 = key
    · rw [List.filter_cons, if_neg (by simp [h])]
      exact ih
    · rw [List.filter_cons, if_pos (by simp [h]), List.cons_append,
        List.find?_cons_of_neg _ (by simp [h])]
      exact ih

/-- After `unregister`, the scheduler id holds nothing. -/
theorem taskLookup_unregisterTask (tasks : List (String × TaskFn × ℚ)) (key : String) :
    taskLookup (unregisterTask tasks key) key = none := by
  unfold taskLookup unregisterTask
  rw [find?_filter_ne]
  rfl

/-- Claim C9: popping a live, kind-matching entry with nonzero cleanup_delay
returns the entry, replaces its pending timeout task by the cleanup callback
scheduled after cleanup_delay seconds (so `on_timeout` can never fire for
it), and keeps the entry matched by `has`/`get` under the same identifier
until the cleanup fires and erases it; with a zero cleanup_delay the
identifier is erased and unscheduled immediately. -/
theorem c9_pop_semantics (rc : RC) (identifier kind : String) (c : CacheE)
    (hfound : rcLookup rc identifier = some c)
    (hkind : c.kind = kind)
    (hwf : ∀ t ∈ rc.tasks,
      (t.2.1 = TaskFn.onTimeoutT identifier ∨ t.2.1 = TaskFn.onCleanupT identifier) →
        t.1 = taskKey identifier) :
    (c.cleanup_delay ≠ 0 →
      (rc_pop rc identifier kind).1 = some c ∧
      (rc_pop rc identifier kind).2.identifiers = rc.identifiers ∧
      rc_has (rc_pop rc identifier kind).2 identifier kind = true ∧
      rc_get (rc_pop rc identifier kind).2 identifier kind = some c ∧
      taskLookup (rc_pop rc identifier kind).2.tasks (taskKey identifier) =
        some (TaskFn.onCleanupT identifier, c.cleanup_delay) ∧
      (∀ t ∈ (rc_pop rc identifier kind).2.tasks, t.2.1 ≠ TaskFn.onTimeoutT identifier) ∧
      rc_has (rc_on_cleanup (rc_pop rc identifier kind).2 identifier) identifier kind = false) ∧
    (c.cleanup_delay = 0 →
      (rc_pop rc identifier kind).1 = some c ∧
      rc_has (rc_pop rc identifier kind).2 identifier kind = false ∧
      taskLookup (rc_pop rc identifier kind).2.tasks (taskKey identifier) = none) := by
  constructor
  · intro hnz
    have hpop : rc_pop rc identifier kind =
        (some c, ⟨rc.identifiers,
          replaceTask rc.tasks (taskKey identifier) (.onCleanupT identifier) c.cleanup_delay⟩) := by
      unfold rc_pop
      rw [hfound]
      dsimp only
      rw [if_pos hkind, if_pos hnz]
    rw [hpop]
    have hfound2 : rcLookup ⟨rc.identifiers,
        replaceTask rc.tasks (taskKey identifier) (.onCleanupT identifier) c.cleanup_delay⟩
        identifier = some c := hfound
    refine ⟨rfl, rfl, ?_, ?_, ?_, ?_, ?_⟩
    · simp only [rc_has, hfound2]
      simp [hkind]
    · simp only [rc_get, hfound2]
      simp [hkind]
    · exact taskLookup_replaceTask rc.tasks (taskKey identifier) _ _
    · intro t ht heq
      rcases List.mem_append.mp ht with h1 | h2
      · have h2 := (List.mem_filter.mp h1).2
        have h3 := hwf t (List.mem_filter.mp h1).1 (Or.inl heq)
        simp [h3] at h2
      · simp at h2
        rw [h2] at heq
        exact absurd heq (by simp)
    · simp only [rc_on_cleanup, rc_has, rcLookup]
      rw [find?_filter_ne]
      rfl
  · intro hz
    have hpop : rc_pop rc identifier kind =
        (some c, ⟨rc.identifiers.filter (fun p => p.1 ≠ identifier),
          unregisterTask rc.tasks (taskKey identifier)⟩) := by
      unfold rc_pop
      rw [hfound]
      dsimp only
      rw [if_pos hkind, if_neg (by simp [hz])]
    rw [hpop]
    refine ⟨rfl, ?_, ?_⟩
    · simp only [rc_has, rcLookup]
      rw [find?_filter_ne]
      rfl
    · exact taskLookup_unregisterTask rc.tasks (taskKey identifier)

/-- Claim C9 witness: a concrete cache with one live entry of kind `intro`
with timeout 11 s and cleanup 5 s, popped under its own identifier. -/
theorem c9_pop_semantics_witness :
    rc_has (rc_pop ⟨[("a", ⟨"intro", 11, 5⟩)],
        [(taskKey "a", TaskFn.onTimeoutT "a", 11)]⟩ "a" "intro").2 "a" "intro" = true :=
  ((c9_pop_semantics ⟨[("a", ⟨"intro", 11, 5⟩)], [(taskKey "a", TaskFn.onTimeoutT "a", 11)]⟩
      "a" "intro" ⟨"intro", 11, 5⟩ (by decide) rfl (by decide)).1 (by decide)).2.2.1

/-- Claim C10 witness: a same-LAN voter (equal WAN host) with an earlier vote
on record changes nothing. -/
theorem c10_vote_guard_frame_witness :
    wan_address_vote
      ⟨("10.0.0.1", 1), ("1.1.1.1", 1), "unknown", [(("5.5.5.5", 5), [("1.1.1.1", 2)])], [], []⟩
      ("5.5.5.5", 5) ⟨("1.1.1.1", 2), ("1.1.1.1", 2)⟩ =
      ⟨("10.0.0.1", 1), ("1.1.1.1", 1), "unknown", [(("5.5.5.5", 5), [("1.1.1.1", 2)])], [], []⟩ :=
  c10_vote_guard_frame _ _ _ (Or.inl rfl)

end Dispersy
